import Mathlib

/-!
Verification of the reconciliation utilities of the aws-api-gateway component
(`src/utils.js`) against its natural-language specification.

The JavaScript source is shallowly embedded: JS strings are Lean `String`s,
JS string primitives (`startsWith`, `endsWith`, `substring`, `split`, `join`,
`toUpperCase`) are embedded as executable Lean functions over `String.data`,
fallible remote calls are `Except AwsError` values produced by explicit remote
oracles, unbounded recursion is fuel-indexed, and the stateful remote API
(resource tree, authorizers) is explicit state passing over an `ApiState`
together with a trace of emitted remote calls.
-/

namespace AwsApiGateway

/-- JS `s.startsWith(pre)`: the character sequence of `pre` is a prefix of `s`. -/
def jsStartsWith (s pre : String) : Bool :=
  pre.data.isPrefixOf s.data

/-- JS `s.endsWith(suf)`: the character sequence of `suf` is a suffix of `s`. -/
def jsEndsWith (s suf : String) : Bool :=
  suf.data.isSuffixOf s.data

/-- JS `s.substring(0, s.length - 1)`: drop the final character. -/
def jsDropLast (s : String) : String :=
  ⟨s.data.dropLast⟩

/-- JS `s.toUpperCase()` on the ASCII strings used by the source. -/
def jsToUpperCase (s : String) : String :=
  ⟨s.data.map Char.toUpper⟩

/-- JS `s.split('/')`. -/
def jsSplitSlash (s : String) : List String :=
  (s.data.splitOn (Char.ofNat 47)).map (fun l => (⟨l⟩ : String))

/-- JS `parts.join('/')`. -/
def jsJoinSlash (parts : List String) : String :=
  ⟨List.intercalate [Char.ofNat 47] (parts.map String.data)⟩

/-- A remote AWS error, discriminated (as in the source) by its `code` string. -/
structure AwsError where
  code : String
  deriving Repr, DecidableEq

/-- A raw endpoint declaration as received by `validateEndpointObject`
(`src/utils.js:145`): `method` and `path` may each be absent. -/
structure RawEndpoint where
  method : Option String
  path : Option String
  deriving Repr, DecidableEq

/-- The canonical endpoint produced by `validateEndpointObject`
(`src/utils.js:183-189`): the derived fields that override the input. -/
structure ValidatedEndpoint where
  url : String
  path : String
  method : String
  deriving Repr, DecidableEq

/-- The fixed method enumeration of `validateEndpointObject` (`src/utils.js:146`). -/
def validMethods : List String :=
  ["GET", "POST", "PUT", "DELETE", "PATCH", "HEAD", "OPTIONS", "ANY"]

/-- The in-place path normalization of `validateEndpointObject`
(`src/utils.js:174-181`): unless the path is the root `/`, prefix a `/` when
missing and then strip a single trailing `/` when present. -/
def normalizeValidPath (p : String) : String :=
  if p = "/" then p
  else
    let p1 := if jsStartsWith p "/" then p else "/" ++ p
    if jsEndsWith p1 "/" then jsDropLast p1 else p1

/-- The derived endpoint URL of `validateEndpointObject` (`src/utils.js:184`). -/
def endpointUrl (apiId region stage path : String) : String :=
  "https://" ++ apiId ++ ".execute-api." ++ region ++ ".amazonaws.com/" ++ stage ++ path

/-- `validateEndpointObject` (`src/utils.js:145-190`): reject a missing or empty
`method`, an empty or missing `path`, or a method outside `validMethods`
(case-insensitively); then normalize the path, upper-case the method and derive
the URL. -/
def validateEndpointObject (endpoint : RawEndpoint) (apiId stage region : String) :
    Except String ValidatedEndpoint :=
  match endpoint.method with
  | none => .error "missing method property for endpoint"
  | some m =>
    if m = "" then .error "missing method property for endpoint"
    else
      match endpoint.path with
      | some p =>
        if p = "" then .error "endpoint path cannot be an empty string for endpoint"
        else if ¬ (validMethods.contains (jsToUpperCase m)) then
          .error "invalid method for endpoint"
        else
          let np := normalizeValidPath p
          .ok { url := endpointUrl apiId region stage np
                path := np
                method := jsToUpperCase m }
      | none => .error "missing path property for endpoint"

/-- Feeding the canonical output of `validateEndpointObject` back into it, as in
the idempotence property of the specification. -/
def reValidate (v : ValidatedEndpoint) (apiId stage region : String) :
    Except String ValidatedEndpoint :=
  validateEndpointObject ⟨some v.method, some v.path⟩ apiId stage region

/-- The outcome of the retry wrapper: the final result, the number of times the
wrapped operation was invoked, and the list of backoff delays (in ms) slept
between consecutive invocations. -/
structure RetryOutcome (α : Type) where
  result : Except AwsError α
  attempts : Nat
  backoffs : List Nat
  deriving Repr

/-- The retry loop of `retry` (`src/utils.js:4-24`). The source delegates to the
`p-retry` library with `retries: 5, minTimeout: 1000, factor: 2`, whose
documented semantics are: run the operation once, and after a failure retry it
up to `retries` further times, sleeping `minTimeout * factor ^ i` before the
(i+1)-th re-invocation. The source's wrapper turns any error whose `code` is
not `TooManyRequestsException` into an `AbortError`, which makes `p-retry`
stop immediately and propagate the original error. `fn n` is the outcome of
the n-th invocation of the wrapped operation. -/
def retryRun {α : Type} (fn : Nat → Except AwsError α) (minTimeout factor : Nat) :
    Nat → Nat → RetryOutcome α
  | attempt, 0 =>
    match fn attempt with
    | .ok a => ⟨.ok a, 1, []⟩
    | .error e => ⟨.error e, 1, []⟩
  | attempt, remaining + 1 =>
    match fn attempt with
    | .ok a => ⟨.ok a, 1, []⟩
    | .error e =>
      if e.code = "TooManyRequestsException" then
        let next := retryRun fn minTimeout factor (attempt + 1) remaining
        ⟨next.result, next.attempts + 1, minTimeout * factor ^ attempt :: next.backoffs⟩
      else ⟨.error e, 1, []⟩

/-- `retry` (`src/utils.js:4-24`) with its default options. -/
def retry {α : Type} (fn : Nat → Except AwsError α) : RetryOutcome α :=
  retryRun fn 1000 2 0 5

/-- `MAX_CONCURRENCY` (`src/utils.js:29`). -/
def MAX_CONCURRENCY : Nat := 1

/-- `MIN_DELAY` (`src/utils.js:30`). -/
def MIN_DELAY : Nat := 200

/-- The scheduler's module state (`src/utils.js:31-33`): the queue (only its
length matters for the claims: queued thunks are no-ops), the in-flight
counter `concurrency`, and the pending `timeout` (modelled as the absolute
instant the pending timer is scheduled to fire, `none` when idle).
`dispatchTimes` (most recent first) and `concurrencyHigh` are history
variables recording every dispatch start instant and the high-water mark of
the in-flight counter; the source does not store them, they only observe it. -/
structure SchedulerState where
  queueLength : Nat
  concurrency : Nat
  timeoutAt : Option Nat
  dispatchTimes : List Nat
  concurrencyHigh : Nat
  deriving Repr, DecidableEq

/-- The scheduler's initial module state. -/
def initialScheduler : SchedulerState :=
  { queueLength := 0, concurrency := 0, timeoutAt := none,
    dispatchTimes := [], concurrencyHigh := 0 }

/-- `processNextQueueElement` (`src/utils.js:35-50`) run at instant `t`: when
the queue is empty, clear the timer and go idle; otherwise, when below
`MAX_CONCURRENCY`, pop the head and begin executing it (a dispatch start),
and in either case re-arm the timer `MIN_DELAY` from now. -/
def processNextQueueElement (t : Nat) (s : SchedulerState) : SchedulerState :=
  if s.queueLength = 0 then { s with timeoutAt := none }
  else
    let s1 :=
      if s.concurrency < MAX_CONCURRENCY then
        { s with concurrency := s.concurrency + 1
                 queueLength := s.queueLength - 1
                 dispatchTimes := t :: s.dispatchTimes
                 concurrencyHigh := max s.concurrencyHigh (s.concurrency + 1) }
      else s
    { s1 with timeoutAt := some (t + MIN_DELAY) }

/-- The environment events driving the scheduler: a submission through
`throttleAwsRequestRequest` (`src/utils.js:52-60`), the pending `setTimeout`
firing, and an in-flight operation completing (`src/utils.js:44-46`). Each
carries the instant at which it happens. -/
inductive SchedulerEvent where
  | submit (t : Nat)
  | timerFire (t : Nat)
  | complete (t : Nat)
  deriving Repr, DecidableEq

/-- The instant of a scheduler event. -/
def SchedulerEvent.time : SchedulerEvent → Nat
  | .submit t => t
  | .timerFire t => t
  | .complete t => t

/-- One step of the scheduler: a submission pushes onto the queue and invokes
`processNextQueueElement` exactly when no timer is pending
(`src/utils.js:54-58`); a timer firing invokes `processNextQueueElement`
(`src/utils.js:49`); a completion decrements the in-flight counter
(`src/utils.js:44-46`). -/
def schedulerStep (s : SchedulerState) : SchedulerEvent → SchedulerState
  | .submit t =>
    let s1 := { s with queueLength := s.queueLength + 1 }
    match s.timeoutAt with
    | none => processNextQueueElement t s1
    | some _ => s1
  | .timerFire t => processNextQueueElement t s
  | .complete _ => { s with concurrency := s.concurrency - 1 }

/-- Run the scheduler over a sequence of events. -/
def schedulerRun (s : SchedulerState) (evs : List SchedulerEvent) : SchedulerState :=
  evs.foldl schedulerStep s

/-- Admissibility of one event in a state, per the JS runtime: a timer fires
only when one is pending and not before its scheduled instant, and a
completion only happens while an operation is in flight. -/
def eventOk (s : SchedulerState) : SchedulerEvent → Bool
  | .timerFire t =>
    match s.timeoutAt with
    | some u => decide (u ≤ t)
    | none => false
  | .complete _ => decide (0 < s.concurrency)
  | .submit _ => true

/-- Well-formedness of an event sequence against the JS runtime: event instants
are nondecreasing and every event is admissible in the state it acts on. -/
def eventsWf (now : Nat) (s : SchedulerState) : List SchedulerEvent → Bool
  | [] => true
  | ev :: rest =>
    decide (now ≤ ev.time) && eventOk s ev && eventsWf ev.time (schedulerStep s ev) rest

/-- Consecutive dispatch start instants (most recent first) are separated by at
least `MIN_DELAY`. -/
def Spaced (times : List Nat) : Prop :=
  List.Chain' (fun a b => b + MIN_DELAY ≤ a) times

/-- A node of the remote resource tree as returned by `apig.getResources`:
its id, full path, parent id, and the set of HTTP methods bound on it (the
keys of `resourceMethods`). -/
structure ResourceItem where
  id : String
  path : String
  parentId : Option String
  resourceMethods : List String
  deriving Repr, DecidableEq

/-- An endpoint record as it appears in the component state and in the desired
endpoint list consumed by `removeOutdatedEndpoints`: canonical method and
path, the resolved resource-node id, and the bound authorizer id (absent when
the endpoint has no authorizer). -/
structure StateEndpoint where
  method : String
  path : String
  id : String
  authorizerId : Option String
  deriving Repr, DecidableEq

/-- The remote API state touched by the garbage-collection phase: the resource
listing and the set of authorizer ids. -/
structure ApiState where
  resources : List ResourceItem
  authorizers : List String
  deriving Repr, DecidableEq

/-- The remote control-plane calls issued by the garbage-collection phase, in
order. -/
inductive AwsCall where
  | getResources
  | deleteMethod (resourceId method : String)
  | deleteResource (resourceId : String)
  | updateMethod (resourceId method : String)
  | deleteAuthorizer (authorizerId : String)
  deriving Repr, DecidableEq

/-- `getPathId` (`src/utils.js:89-110`): with no endpoint, the id of the root
node (path `/`); with an endpoint, the id of the node whose path equals the
endpoint's path, or `none`. -/
def getPathId (resources : List ResourceItem) (endpointPath : Option String) : Option String :=
  match endpointPath with
  | none => (resources.find? (fun r => r.path == "/")).map (fun r => r.id)
  | some p => (resources.find? (fun r => r.path == p)).map (fun r => r.id)

/-- JS truthiness of the tri-valued result of `endpointExists`: `undefined`
(modelled `none`) is falsy. -/
def truthy : Option Bool → Bool
  | some b => b
  | none => false

/-- `endpointExists` (`src/utils.js:112-133`): resolve the path to a resource
id (`false` when absent), then call `getMethod`; `true` on success, `false`
on `NotFoundException`, and — because the catch block has no other exit —
JS `undefined` (modelled `none`) on any other error. `getMethod rid m` is the
remote oracle for `apig.getMethod`. -/
def endpointExists (resources : List ResourceItem)
    (getMethod : String → String → Except AwsError Unit)
    (method path : String) : Option Bool :=
  match getPathId resources (some path) with
  | none => some false
  | some resourceId =>
    match getMethod resourceId method with
    | .ok _ => some true
    | .error e => if e.code = "NotFoundException" then some false else none

/-- `myEndpoint` (`src/utils.js:135-143`): the endpoint's (method, path) pair
occurs in the persisted state (an absent state list is the empty list). -/
def myEndpoint (stateEndpoints : List StateEndpoint) (method path : String) : Bool :=
  (stateEndpoints.find? (fun e => e.method == method && e.path == path)).isSome

/-- `validateEndpoint` (`src/utils.js:192-204`): validate the raw endpoint, and
when a method already exists remotely at its (method, path) and is not
recorded in this component's own state, fail with the conflict error. -/
def validateEndpoint (resources : List ResourceItem)
    (getMethod : String → String → Except AwsError Unit)
    (endpoint : RawEndpoint) (stateEndpoints : List StateEndpoint)
    (apiId stage region : String) : Except String ValidatedEndpoint :=
  match validateEndpointObject endpoint apiId stage region with
  | .error msg => .error msg
  | .ok v =>
    if truthy (endpointExists resources getMethod v.method v.path) then
      if myEndpoint stateEndpoints v.method v.path then .ok v
      else .error "endpoint already exists in provider"
    else .ok v

/-- The final path segment popped by `createPath` (`src/utils.js:223-224`). -/
def lastPathPart (path : String) : String :=
  (jsSplitSlash path).getLastD ""

/-- The parent path computed by `createPath` (`src/utils.js:223-225`). -/
def parentPathOf (path : String) : String :=
  jsJoinSlash (jsSplitSlash path).dropLast

/-- `createPath` (`src/utils.js:216-243`): return the node id when the path is
already in the listing; otherwise resolve the parent (the root id when the
parent path is empty; a missing root is the JS `TypeError` of
`src/utils.js:99-102`) and issue `apig.createResource` for the final segment,
whose result — success or error — is returned as is. `createResource part
parentId` is the remote oracle; `fuel` bounds the recursion depth. -/
def createPath (resources : List ResourceItem)
    (createResource : String → String → Except AwsError ResourceItem) :
    String → Nat → Except AwsError String
  | _, 0 => .error ⟨"FuelExhausted"⟩
  | path, fuel + 1 =>
    match getPathId resources (some path) with
    | some pathId => .ok pathId
    | none =>
      let parentResult :=
        if parentPathOf path = "" then
          match getPathId resources none with
          | some rootId => Except.ok rootId
          | none => Except.error (⟨"TypeError"⟩ : AwsError)
        else createPath resources createResource (parentPathOf path) fuel
      match parentResult with
      | .error e => .error e
      | .ok parentId =>
        match createResource (lastPathPart path) parentId with
        | .ok created => .ok created.id
        | .error e => .error e

/-- The parent-resolution step of `createPath` (`src/utils.js:227-232`),
factored out so that theorems can refer to it. -/
def createPathParent (resources : List ResourceItem)
    (createResource : String → String → Except AwsError ResourceItem)
    (path : String) (fuel : Nat) : Except AwsError String :=
  if parentPathOf path = "" then
    match getPathId resources none with
    | some rootId => Except.ok rootId
    | none => Except.error (⟨"TypeError"⟩ : AwsError)
  else createPath resources createResource (parentPathOf path) fuel

/-- The outcome of `createIntegration`: final result, number of
`apig.putIntegration` calls issued, and the cool-down sleeps (in ms) taken
between consecutive calls. -/
structure IntegrationOutcome where
  result : Except AwsError Unit
  putCalls : Nat
  sleeps : List Nat
  deriving Repr

/-- `createIntegration` (`src/utils.js:318-381`), reduced to its control flow:
`putIntegration n` is the remote oracle for the n-th `apig.putIntegration`
call; on `ConflictException` the source sleeps 2000ms and retries itself
recursively (`src/utils.js:351-357`), on any other error it rethrows; after
success, a function-backed endpoint (`isLambda`) grants invoke permission,
tolerating `ResourceConflictException` (`src/utils.js:362-378`). `fuel`
bounds the recursion depth. -/
def createIntegration (putIntegration : Nat → Except AwsError Unit)
    (addPermission : Except AwsError Unit) (isLambda : Bool) :
    Nat → Nat → IntegrationOutcome
  | _, 0 => ⟨.error ⟨"FuelExhausted"⟩, 0, []⟩
  | call, fuel + 1 =>
    match putIntegration call with
    | .ok _ =>
      if isLambda then
        match addPermission with
        | .ok _ => ⟨.ok (), 1, []⟩
        | .error e =>
          if e.code = "ResourceConflictException" then ⟨.ok (), 1, []⟩
          else ⟨.error e, 1, []⟩
      else ⟨.ok (), 1, []⟩
    | .error e =>
      if e.code = "ConflictException" then
        let next := createIntegration putIntegration addPermission isLambda (call + 1) fuel
        ⟨next.result, next.putCalls + 1, 2000 :: next.sleeps⟩
      else ⟨.error e, 1, []⟩

/-- `removeMethod` (`src/utils.js:403-419`): delete the endpoint's method from
its resource node; `NotFoundException` is treated as success, so the model
simply removes the method when present. -/
def removeMethod (s : ApiState) (endpoint : StateEndpoint) : ApiState × List AwsCall :=
  ({ s with resources := s.resources.map (fun r =>
      if r.id = endpoint.id
      then { r with resourceMethods := r.resourceMethods.filter (fun mth => mth ≠ endpoint.method) }
      else r) },
   [AwsCall.deleteMethod endpoint.id endpoint.method])

/-- `removeMethods` (`src/utils.js:421-429`): one `removeMethod` per endpoint. -/
def removeMethods (s : ApiState) (endpoints : List StateEndpoint) : ApiState × List AwsCall :=
  endpoints.foldl
    (fun acc ep =>
      let st := removeMethod acc.1 ep
      (st.1, acc.2 ++ st.2))
    (s, [])

/-- `removeResource` (`src/utils.js:431-442`): delete the endpoint's resource
node; `NotFoundException` is treated as success, so the model simply removes
the node when present. -/
def removeResource (s : ApiState) (endpoint : StateEndpoint) : ApiState × List AwsCall :=
  ({ s with resources := s.resources.filter (fun r => r.id ≠ endpoint.id) },
   [AwsCall.deleteResource endpoint.id])

/-- The per-endpoint guard of `removeResources` (`src/utils.js:453-464`): the
endpoint's node is found in the listing, has no bound methods and no child
nodes. -/
def resourceQualifies (items : List ResourceItem) (endpoint : StateEndpoint) : Bool :=
  match items.find? (fun r => r.id == endpoint.id) with
  | none => false
  | some r =>
    r.resourceMethods.isEmpty && (items.filter (fun c => c.parentId == some endpoint.id)).isEmpty

/-- `removeResources` (`src/utils.js:444-476`): fetch the resource listing;
delete every target endpoint's node that has no methods and no children in
that listing; when nothing qualified, stop; otherwise repeat the whole pass.
`fuel` bounds the number of passes (the source recurses without a bound but
each recursive pass has deleted at least one node). -/
def removeResources (s : ApiState) (endpoints : List StateEndpoint) :
    Nat → ApiState × List AwsCall
  | 0 => (s, [])
  | fuel + 1 =>
    let toDelete := endpoints.filter (resourceQualifies s.resources)
    if toDelete.isEmpty then (s, [AwsCall.getResources])
    else
      let s1 := toDelete.foldl (fun st ep => (removeResource st ep).1) s
      let rest := removeResources s1 endpoints fuel
      (rest.1,
        (AwsCall.getResources :: toDelete.map (fun ep => AwsCall.deleteResource ep.id)) ++ rest.2)

/-- `removeAuthorizer` (`src/utils.js:544-567`): when the endpoint carries an
authorizer id, patch the method's authorization type back to `NONE` and
delete the authorizer. -/
def removeAuthorizer (s : ApiState) (endpoint : StateEndpoint) : ApiState × List AwsCall :=
  match endpoint.authorizerId with
  | none => (s, [])
  | some aid =>
    ({ s with authorizers := s.authorizers.filter (fun a => a ≠ aid) },
     [AwsCall.updateMethod endpoint.id endpoint.method, AwsCall.deleteAuthorizer aid])

/-- `removeAuthorizers` (`src/utils.js:569-579`): one `removeAuthorizer` per
endpoint. -/
def removeAuthorizers (s : ApiState) (endpoints : List StateEndpoint) : ApiState × List AwsCall :=
  endpoints.foldl
    (fun acc ep =>
      let st := removeAuthorizer acc.1 ep
      (st.1, acc.2 ++ st.2))
    (s, [])

/-- The classification loop of `removeOutdatedEndpoints` (`src/utils.js:582-598`):
a state endpoint whose (method, path) is not in the desired list goes to
`outdatedEndpoints`; otherwise, when its `authorizerId` is referenced by no
desired endpoint, it goes to `outdatedAuthorizers`. -/
def classifyOutdated (endpoints stateEndpoints : List StateEndpoint) :
    List StateEndpoint × List StateEndpoint :=
  stateEndpoints.foldl
    (fun acc stateEndpoint =>
      let endpointInUse := endpoints.find?
        (fun e => e.method == stateEndpoint.method && e.path == stateEndpoint.path)
      let authorizerInUse := endpoints.find?
        (fun e => e.authorizerId == stateEndpoint.authorizerId)
      match endpointInUse with
      | none => (acc.1 ++ [stateEndpoint], acc.2)
      | some _ =>
        match authorizerInUse with
        | none => (acc.1, acc.2 ++ [stateEndpoint])
        | some _ => acc)
    ([], [])

/-- `removeOutdatedEndpoints` (`src/utils.js:581-605`): classify the state
endpoints, then run `removeResources` on the outdated endpoints, then
`removeMethods` on them, then `removeAuthorizers` on the outdated
authorizers; returns the final state, the concatenated call trace and the
outdated endpoints. -/
def removeOutdatedEndpoints (s : ApiState) (endpoints stateEndpoints : List StateEndpoint)
    (fuel : Nat) : ApiState × List AwsCall × List StateEndpoint :=
  let classified := classifyOutdated endpoints stateEndpoints
  let rr := removeResources s classified.1 fuel
  let rm := removeMethods rr.1 classified.1
  let ra := removeAuthorizers rm.1 classified.2
  (ra.1, (rr.2 ++ rm.2 ++ ra.2, classified.1))

end AwsApiGateway

namespace AwsApiGateway

/-- An operation that fails rate-limited on its first five invocations and
succeeds on the sixth. -/
def rateLimitedFiveThenOk : Nat → Except AwsError Nat :=
  fun n => if n < 5 then .error ⟨"TooManyRequestsException"⟩ else .ok 42

/-- An operation that always succeeds. -/
def alwaysOk : Nat → Except AwsError Nat :=
  fun _ => .ok 7

/-- A resource listing holding only the root node. -/
def ceResources : List ResourceItem := [⟨"root-id", "/", none, []⟩]

/-- A create-resource oracle that always reports the node as already existing
(the conflict raised by a race with a concurrent creator). -/
def conflictingCreate : String → String → Except AwsError ResourceItem :=
  fun _ _ => .error ⟨"ConflictException"⟩

/-- An integration put that conflicts on its first two calls and then succeeds. -/
def conflictTwiceThenOk : Nat → Except AwsError Unit :=
  fun n => if n < 2 then .error ⟨"ConflictException"⟩ else .ok ()

/-- An integration put that always succeeds. -/
def alwaysPutOk : Nat → Except AwsError Unit :=
  fun _ => .ok ()

/-- A method-lookup oracle that fails with a non-not-found error. -/
def throttledGetMethod : String → String → Except AwsError Unit :=
  fun _ _ => .error ⟨"ThrottlingException"⟩

/-- A resource listing holding a single node `/x` with a bound GET method. -/
def oneResource : List ResourceItem := [⟨"r1", "/x", some "root", ["GET"]⟩]

def sWitness : ApiState :=
  ⟨[⟨"root", "/", none, []⟩, ⟨"ra", "/a", some "root", ["GET"]⟩], []⟩

def epsWitness : List StateEndpoint := [⟨"GET", "/a", "ra", none⟩]

def authTraceOf (ep : StateEndpoint) : List AwsCall :=
  match ep.authorizerId with
  | none => []
  | some aid => [AwsCall.updateMethod ep.id ep.method, AwsCall.deleteAuthorizer aid]

def gcPriorState : ApiState :=
  ⟨[⟨"root", "/", none, []⟩, ⟨"res-old", "/old", some "root", ["GET"]⟩], []⟩

def staleGetOld : StateEndpoint := ⟨"GET", "/old", "res-old", none⟩

def gcAuthState : ApiState :=
  ⟨[⟨"root", "/", none, []⟩, ⟨"res-old", "/old", some "root", ["GET"]⟩], ["auth-1"]⟩

def staleAuthEndpoint : StateEndpoint := ⟨"GET", "/old", "res-old", some "auth-1"⟩

def SchedulerInv (now : Nat) (s : SchedulerState) : Prop :=
  s.concurrency ≤ MAX_CONCURRENCY ∧
  s.concurrencyHigh ≤ MAX_CONCURRENCY ∧
  Spaced s.dispatchTimes ∧
  (∀ d u, s.dispatchTimes.head? = some d → s.timeoutAt = some u → d + MIN_DELAY ≤ u) ∧
  (∀ d, s.dispatchTimes.head? = some d → s.timeoutAt = none → d + MIN_DELAY ≤ now)

def evWitness : List SchedulerEvent :=
  [.submit 0, .timerFire 200, .complete 210, .submit 450]

lemma jsStartsWith_slash_iff (s : String) :
    jsStartsWith s "/" = true ↔ ∃ t, s.data = '/' :: t := by
  unfold jsStartsWith
  rw [List.isPrefixOf_iff_prefix]
  constructor
  · rintro ⟨t, ht⟩
    exact ⟨t, ht.symm⟩
  · rintro ⟨t, ht⟩
    exact ⟨t, ht.symm⟩

lemma jsEndsWith_slash_iff (s : String) :
    jsEndsWith s "/" = true ↔ ∃ t, s.data = t ++ ['/'] := by
  unfold jsEndsWith
  rw [List.isSuffixOf_iff_suffix]
  constructor
  · rintro ⟨t, ht⟩
    exact ⟨t, ht.symm⟩
  · rintro ⟨t, ht⟩
    exact ⟨t, ht.symm⟩

lemma jsEndsWith_dslash_iff (s : String) :
    jsEndsWith s "//" = true ↔ ∃ t, s.data = t ++ ['/', '/'] := by
  unfold jsEndsWith
  rw [List.isSuffixOf_iff_suffix]
  constructor
  · rintro ⟨t, ht⟩
    exact ⟨t, ht.symm⟩
  · rintro ⟨t, ht⟩
    exact ⟨t, ht.symm⟩

lemma string_ne_empty_iff (s : String) : s ≠ "" ↔ s.data ≠ [] := by
  constructor
  · intro h hc
    exact h (by apply String.ext; simpa using hc)
  · intro h hc
    exact h (by rw [hc])

lemma string_ne_root_iff (s : String) : s ≠ "/" ↔ s.data ≠ ['/'] := by
  constructor
  · intro h hc
    exact h (by apply String.ext; simpa using hc)
  · intro h hc
    exact h (by rw [hc])

lemma normalizeValidPath_not_root (p : String) (hroot : p ≠ "/") :
    normalizeValidPath p =
      (if jsEndsWith (if jsStartsWith p "/" then p else "/" ++ p) "/"
       then jsDropLast (if jsStartsWith p "/" then p else "/" ++ p)
       else (if jsStartsWith p "/" then p else "/" ++ p)) := by
  unfold normalizeValidPath
  rw [if_neg hroot]

lemma prefixed_data (p : String) (hp : p ≠ "") (hroot : p ≠ "/") :
    ∃ t, (if jsStartsWith p "/" then p else "/" ++ p).data = '/' :: t ∧ t ≠ [] := by
  by_cases hsw : jsStartsWith p "/" = true
  · rw [if_pos hsw]
    obtain ⟨t, ht⟩ := (jsStartsWith_slash_iff p).mp hsw
    refine ⟨t, ht, ?_⟩
    intro hnil
    exact (string_ne_root_iff p).mp hroot (by rw [ht, hnil])
  · rw [if_neg hsw]
    refine ⟨p.data, by rw [String.data_append]; rfl, (string_ne_empty_iff p).mp hp⟩

lemma normalizeValidPath_startsWith (p : String) (hp : p ≠ "") :
    jsStartsWith (normalizeValidPath p) "/" = true := by
  by_cases hroot : p = "/"
  · subst hroot
    rfl
  · rw [normalizeValidPath_not_root p hroot]
    obtain ⟨t, ht, htne⟩ := prefixed_data p hp hroot
    by_cases hew : jsEndsWith (if jsStartsWith p "/" then p else "/" ++ p) "/" = true
    · rw [if_pos hew]
      rw [jsStartsWith_slash_iff]
      refine ⟨t.dropLast, ?_⟩
      show (jsDropLast _).data = _
      unfold jsDropLast
      rw [ht, List.dropLast_cons_of_ne_nil htne]
    · rw [if_neg hew]
      rw [jsStartsWith_slash_iff]
      exact ⟨t, ht⟩

lemma normalizeValidPath_trailing (p : String) (hp2 : jsEndsWith p "//" = false) :
    normalizeValidPath p = "/" ∨ jsEndsWith (normalizeValidPath p) "/" = false := by
  by_cases hroot : p = "/"
  · left
    subst hroot
    rfl
  · right
    rw [normalizeValidPath_not_root p hroot]
    by_cases hsw : jsStartsWith p "/" = true
    · rw [if_pos hsw]
      by_cases hew : jsEndsWith p "/" = true
      · rw [if_pos hew]
        by_contra hc
        rw [Bool.not_eq_false] at hc
        obtain ⟨t, ht⟩ := (jsEndsWith_slash_iff _).mp hc
        obtain ⟨u, hu⟩ := (jsEndsWith_slash_iff p).mp hew
        have hdl : (jsDropLast p).data = u := by
          unfold jsDropLast
          rw [hu, List.dropLast_concat]
        rw [hdl] at ht
        have : p.data = t ++ ['/', '/'] := by
          rw [hu, ht]
          simp
        have := (jsEndsWith_dslash_iff p).mpr ⟨t, this⟩
        rw [hp2] at this
        exact Bool.false_ne_true this
      · rw [if_neg hew]
        exact Bool.not_eq_true _ ▸ (Bool.eq_false_iff.mpr hew)
    · rw [if_neg hsw]
      by_cases hew : jsEndsWith ("/" ++ p) "/" = true
      · rw [if_pos hew]
        by_contra hc
        rw [Bool.not_eq_false] at hc
        obtain ⟨t, ht⟩ := (jsEndsWith_slash_iff _).mp hc
        obtain ⟨u, hu⟩ := (jsEndsWith_slash_iff ("/" ++ p)).mp hew
        have hdl : (jsDropLast ("/" ++ p)).data = u := by
          unfold jsDropLast
          rw [hu, List.dropLast_concat]
        rw [hdl] at ht
        have hfull : ('/' : Char) :: p.data = t ++ ['/', '/'] := by
          have h1 : ("/" ++ p).data = '/' :: p.data := by
            rw [String.data_append]; rfl
          rw [← h1, hu, ht]
          simp
        cases t with
        | nil =>
          have hpd : p.data = ['/'] := by
            simpa using hfull
          have : jsStartsWith p "/" = true :=
            (jsStartsWith_slash_iff p).mpr ⟨[], hpd⟩
          exact hsw this
        | cons c t2 =>
          have h2 : ('/' : Char) :: p.data = c :: (t2 ++ ['/', '/']) := by
            simpa using hfull
          have hpd : p.data = t2 ++ ['/', '/'] := (List.cons.inj h2).2
          have := (jsEndsWith_dslash_iff p).mpr ⟨t2, hpd⟩
          rw [hp2] at this
          exact Bool.false_ne_true this
      · rw [if_neg hew]
        exact Bool.not_eq_true _ ▸ (Bool.eq_false_iff.mpr hew)

lemma validateEndpointObject_ok_iff (e : RawEndpoint) (apiId stage region : String)
    (v : ValidatedEndpoint) :
    validateEndpointObject e apiId stage region = .ok v ↔
      ∃ m p, e.method = some m ∧ e.path = some p ∧ m ≠ "" ∧ p ≠ "" ∧
        validMethods.contains (jsToUpperCase m) = true ∧
        v = { url := endpointUrl apiId region stage (normalizeValidPath p),
              path := normalizeValidPath p, method := jsToUpperCase m } := by
  unfold validateEndpointObject
  cases hm : e.method with
  | none => simp
  | some m =>
    cases hpth : e.path with
    | none =>
      by_cases hme : m = "" <;> simp [hme]
    | some p =>
      by_cases hme : m = ""
      · simp [hme]
      · by_cases hpe : p = ""
        · simp [hme, hpe]
        · by_cases hcm : validMethods.contains (jsToUpperCase m) = true
          · have hcm2 : jsToUpperCase m ∈ validMethods := by simpa using hcm
            simp [hme, hpe, hcm, hcm2, eq_comm]
          · have hcm2 : jsToUpperCase m ∉ validMethods := by simpa using hcm
            simp [hme, hpe, hcm, hcm2]

lemma validMethod_fixed (s : String) (h : validMethods.contains s = true) :
    jsToUpperCase s = s ∧ s ≠ "" := by
  have hmem : s ∈ validMethods := by
    simpa using h
  simp only [validMethods, List.mem_cons, List.not_mem_nil, or_false] at hmem
  rcases hmem with rfl | rfl | rfl | rfl | rfl | rfl | rfl | rfl <;>
    exact ⟨rfl, by decide⟩

lemma normalizeValidPath_fixed (q : String) (hsw : jsStartsWith q "/" = true)
    (hnt : q = "/" ∨ jsEndsWith q "/" = false) :
    normalizeValidPath q = q := by
  rcases hnt with h | h
  · rw [h]
    rfl
  · unfold normalizeValidPath
    by_cases hroot : q = "/"
    · rw [if_pos hroot]
    · rw [if_neg hroot, if_pos hsw, if_neg (by rw [h]; exact Bool.false_ne_true)]

lemma reValidate_fixed (e : RawEndpoint) (apiId stage region : String)
    (v : ValidatedEndpoint)
    (hok : validateEndpointObject e apiId stage region = .ok v)
    (hnt : v.path = "/" ∨ jsEndsWith v.path "/" = false) :
    reValidate v apiId stage region = .ok v := by
  obtain ⟨m, p, hm, hp, hme, hpe, hcm, hv⟩ :=
    (validateEndpointObject_ok_iff e apiId stage region v).mp hok
  have hmethod : v.method = jsToUpperCase m := by rw [hv]
  have hpath : v.path = normalizeValidPath p := by rw [hv]
  have hurl : v.url = endpointUrl apiId region stage v.path := by rw [hv]
  have hmfix : jsToUpperCase v.method = v.method ∧ v.method ≠ "" := by
    rw [hmethod]
    exact validMethod_fixed _ hcm
  have hsw : jsStartsWith v.path "/" = true := by
    rw [hpath]
    exact normalizeValidPath_startsWith p hpe
  have hpne : v.path ≠ "" := by
    rw [string_ne_empty_iff]
    obtain ⟨t, ht⟩ := (jsStartsWith_slash_iff _).mp hsw
    rw [ht]
    exact List.cons_ne_nil _ _
  have hcm2 : validMethods.contains (jsToUpperCase v.method) = true := by
    rw [hmfix.1, hmethod]
    exact hcm
  have hnorm : normalizeValidPath v.path = v.path := normalizeValidPath_fixed _ hsw hnt
  rw [reValidate]
  rw [validateEndpointObject_ok_iff]
  exact ⟨v.method, v.path, rfl, rfl, hmfix.2, hpne, hcm2, by
    rw [hnorm, hmfix.1, ← hurl]⟩

/-- Claim C7, corrected: for every endpoint that passes validation, the
canonical method is the upper-cased input method and the canonical path
starts with a slash; but because the source strips only a single trailing
slash, the canonical path is guaranteed not to end with a slash (except the
root) only when the input path does not end with a double slash. -/
theorem validateEndpointObject_normalization (e : RawEndpoint)
    (apiId stage region m p : String) (v : ValidatedEndpoint)
    (hm : e.method = some m) (hp : e.path = some p)
    (hok : validateEndpointObject e apiId stage region = .ok v) :
    v.method = jsToUpperCase m ∧
    jsStartsWith v.path "/" = true ∧
    (jsEndsWith p "//" = false → (v.path = "/" ∨ jsEndsWith v.path "/" = false)) := by
  obtain ⟨m2, p2, hm2, hp2, hme, hpe, hcm, hv⟩ :=
    (validateEndpointObject_ok_iff e apiId stage region v).mp hok
  rw [hm, Option.some.injEq] at hm2
  rw [hp, Option.some.injEq] at hp2
  subst hm2
  subst hp2
  refine ⟨by rw [hv], ?_, ?_⟩
  · rw [hv]
    exact normalizeValidPath_startsWith p hpe
  · intro h2
    rw [hv]
    exact normalizeValidPath_trailing p h2

/-- Witness for C7: the spec's own scenario, input path `items/` with method
`get`, normalizes to `/items` with method `GET`. -/
theorem validateEndpointObject_normalization_witness :
    ("GET" : String) = jsToUpperCase "get" ∧
    jsStartsWith "/items" "/" = true ∧
    (("/items" : String) = "/" ∨ jsEndsWith "/items" "/" = false) :=
  ⟨(validateEndpointObject_normalization ⟨some "get", some "items/"⟩ "api" "dev" "eu" "get"
      "items/" { url := "https://api.execute-api.eu.amazonaws.com/dev/items",
                 path := "/items", method := "GET" } rfl rfl rfl).1,
   (validateEndpointObject_normalization ⟨some "get", some "items/"⟩ "api" "dev" "eu" "get"
      "items/" { url := "https://api.execute-api.eu.amazonaws.com/dev/items",
                 path := "/items", method := "GET" } rfl rfl rfl).2.1,
   (validateEndpointObject_normalization ⟨some "get", some "items/"⟩ "api" "dev" "eu" "get"
      "items/" { url := "https://api.execute-api.eu.amazonaws.com/dev/items",
                 path := "/items", method := "GET" } rfl rfl rfl).2.2 rfl⟩

/-- Counterexample to C7 as stated: the input path `items//` passes validation
and normalizes to `/items/`, which ends with `/` yet is not the root path —
only one trailing slash is stripped (`src/utils.js:178-180`). -/
theorem validateEndpointObject_trailing_counterexample :
    validateEndpointObject ⟨some "get", some "items//"⟩ "api" "dev" "eu" =
      .ok { url := "https://api.execute-api.eu.amazonaws.com/dev/items/",
            path := "/items/", method := "GET" } ∧
    jsEndsWith "/items/" "/" = true ∧ ("/items/" : String) ≠ "/" :=
  ⟨rfl, rfl, by decide⟩

/-- Counterexample to C8 as stated: validating the endpoint `items//` yields
canonical path `/items/`, and re-validating that output strips one more
slash, yielding `/items` — normalization is not idempotent on this input. -/
theorem validateEndpointObject_not_idempotent_counterexample :
    validateEndpointObject ⟨some "get", some "items//"⟩ "api" "dev" "eu" =
      .ok { url := "https://api.execute-api.eu.amazonaws.com/dev/items/",
            path := "/items/", method := "GET" } ∧
    reValidate { url := "https://api.execute-api.eu.amazonaws.com/dev/items/",
                 path := "/items/", method := "GET" } "api" "dev" "eu" =
      .ok { url := "https://api.execute-api.eu.amazonaws.com/dev/items",
            path := "/items", method := "GET" } ∧
    ("/items" : String) ≠ "/items/" :=
  ⟨rfl, rfl, by decide⟩

/-- Claim C8, corrected: validation is idempotent on every successfully
validated endpoint whose canonical path does not end with a slash (or is the
root); re-validating such an output reproduces it exactly. (The exception is
forced by the counterexample: a canonical path that still ends with a slash —
possible when the input had several trailing slashes — loses one more slash
on re-validation.) -/
theorem validateEndpointObject_idempotent_amended (e : RawEndpoint)
    (apiId stage region : String) (v : ValidatedEndpoint)
    (hok : validateEndpointObject e apiId stage region = .ok v)
    (hnt : v.path = "/" ∨ jsEndsWith v.path "/" = false) :
    reValidate v apiId stage region = .ok v :=
  reValidate_fixed e apiId stage region v hok hnt

/-- Witness for C8: re-validating the canonical form of `items` reproduces it. -/
theorem validateEndpointObject_idempotent_amended_witness :
    reValidate { url := "https://a.execute-api.r.amazonaws.com/s/items",
                 path := "/items", method := "GET" } "a" "s" "r" =
      .ok { url := "https://a.execute-api.r.amazonaws.com/s/items",
            path := "/items", method := "GET" } :=
  validateEndpointObject_idempotent_amended ⟨some "get", some "items"⟩ "a" "s" "r"
    { url := "https://a.execute-api.r.amazonaws.com/s/items",
      path := "/items", method := "GET" } rfl (Or.inr rfl)

end AwsApiGateway

namespace AwsApiGateway

lemma retryRun_attempts_pos {α : Type} (fn : Nat → Except AwsError α) (m f : Nat) :
    ∀ remaining attempt, 1 ≤ (retryRun fn m f attempt remaining).attempts := by
  intro remaining
  induction remaining with
  | zero =>
    intro attempt
    unfold retryRun
    cases fn attempt <;> simp
  | succ r ih =>
    intro attempt
    unfold retryRun
    cases fn attempt with
    | ok a => simp
    | error e =>
      by_cases hc : e.code = "TooManyRequestsException" <;> simp [hc]

lemma retryRun_attempts_le {α : Type} (fn : Nat → Except AwsError α) (m f : Nat) :
    ∀ remaining attempt, (retryRun fn m f attempt remaining).attempts ≤ remaining + 1 := by
  intro remaining
  induction remaining with
  | zero =>
    intro attempt
    unfold retryRun
    cases fn attempt <;> simp
  | succ r ih =>
    intro attempt
    unfold retryRun
    cases fn attempt with
    | ok a => simp
    | error e =>
      by_cases hc : e.code = "TooManyRequestsException"
      · simp only [hc, if_pos]
        have := ih (attempt + 1)
        omega
      · simp [hc]

lemma retryRun_backoffs {α : Type} (fn : Nat → Except AwsError α) (m f : Nat) :
    ∀ remaining attempt,
      (retryRun fn m f attempt remaining).backoffs =
        (List.range ((retryRun fn m f attempt remaining).attempts - 1)).map
          (fun i => m * f ^ (attempt + i)) := by
  intro remaining
  induction remaining with
  | zero =>
    intro attempt
    unfold retryRun
    cases fn attempt <;> simp
  | succ r ih =>
    intro attempt
    unfold retryRun
    cases fn attempt with
    | ok a => simp
    | error e =>
      by_cases hc : e.code = "TooManyRequestsException"
      · simp only [hc, if_pos]
        have hpos := retryRun_attempts_pos fn m f r (attempt + 1)
        have heq : (retryRun fn m f (attempt + 1) r).attempts + 1 - 1 =
            ((retryRun fn m f (attempt + 1) r).attempts - 1) + 1 := by omega
        simp only [heq, List.range_succ_eq_map, List.map_cons, List.map_map]
        rw [ih (attempt + 1)]
        refine congrArg₂ List.cons (by rw [Nat.add_zero]) ?_
        apply List.map_congr_left
        intro a _
        show m * f ^ (attempt + 1 + a) = m * f ^ (attempt + Nat.succ a)
        have : attempt + 1 + a = attempt + Nat.succ a := by omega
        rw [this]
      · simp [hc]

lemma retryRun_ok {α : Type} (fn : Nat → Except AwsError α) (m f : Nat) (v : α) :
    ∀ k remaining attempt, k ≤ remaining →
      (∀ j, j < k → ∃ e, fn (attempt + j) = .error e ∧ e.code = "TooManyRequestsException") →
      fn (attempt + k) = .ok v →
      (retryRun fn m f attempt remaining).result = .ok v ∧
      (retryRun fn m f attempt remaining).attempts = k + 1 := by
  intro k
  induction k with
  | zero =>
    intro remaining attempt _ _ hok
    rw [Nat.add_zero] at hok
    cases remaining <;> (unfold retryRun; rw [hok]; exact ⟨rfl, rfl⟩)
  | succ k2 ih =>
    intro remaining attempt hle hrl hok
    cases remaining with
    | zero => omega
    | succ r =>
      obtain ⟨e0, he0, hc0⟩ := hrl 0 (Nat.succ_pos k2)
      rw [Nat.add_zero] at he0
      unfold retryRun
      rw [he0]
      simp only [hc0, if_pos]
      have hih := ih r (attempt + 1) (by omega)
        (fun j hj => by
          obtain ⟨e2, he2, hc2⟩ := hrl (j + 1) (by omega)
          exact ⟨e2, by rw [show attempt + 1 + j = attempt + (j + 1) by omega]; exact he2, hc2⟩)
        (by rw [show attempt + 1 + k2 = attempt + (k2 + 1) by omega]; exact hok)
      exact ⟨hih.1, by omega⟩

lemma retryRun_abort {α : Type} (fn : Nat → Except AwsError α) (m f : Nat) (e : AwsError) :
    ∀ k remaining attempt, k ≤ remaining →
      (∀ j, j < k → ∃ e2, fn (attempt + j) = .error e2 ∧ e2.code = "TooManyRequestsException") →
      fn (attempt + k) = .error e → e.code ≠ "TooManyRequestsException" →
      (retryRun fn m f attempt remaining).result = .error e ∧
      (retryRun fn m f attempt remaining).attempts = k + 1 := by
  intro k
  induction k with
  | zero =>
    intro remaining attempt _ _ herr hcode
    rw [Nat.add_zero] at herr
    cases remaining with
    | zero =>
      unfold retryRun
      rw [herr]
      exact ⟨rfl, rfl⟩
    | succ r =>
      unfold retryRun
      rw [herr]
      simp [hcode]
  | succ k2 ih =>
    intro remaining attempt hle hrl herr hcode
    cases remaining with
    | zero => omega
    | succ r =>
      obtain ⟨e0, he0, hc0⟩ := hrl 0 (Nat.succ_pos k2)
      rw [Nat.add_zero] at he0
      unfold retryRun
      rw [he0]
      simp only [hc0, if_pos]
      have hih := ih r (attempt + 1) (by omega)
        (fun j hj => by
          obtain ⟨e2, he2, hc2⟩ := hrl (j + 1) (by omega)
          exact ⟨e2, by rw [show attempt + 1 + j = attempt + (j + 1) by omega]; exact he2, hc2⟩)
        (by rw [show attempt + 1 + k2 = attempt + (k2 + 1) by omega]; exact herr) hcode
      exact ⟨hih.1, by omega⟩

lemma retryRun_exhaust {α : Type} (fn : Nat → Except AwsError α) (m f : Nat) :
    ∀ remaining attempt,
      (∀ j, j ≤ remaining → ∃ e, fn (attempt + j) = .error e ∧
        e.code = "TooManyRequestsException") →
      ∀ e, fn (attempt + remaining) = .error e →
      (retryRun fn m f attempt remaining).result = .error e ∧
      (retryRun fn m f attempt remaining).attempts = remaining + 1 := by
  intro remaining
  induction remaining with
  | zero =>
    intro attempt _ e herr
    rw [Nat.add_zero] at herr
    unfold retryRun
    rw [herr]
    exact ⟨rfl, rfl⟩
  | succ r ih =>
    intro attempt hrl e herr
    obtain ⟨e0, he0, hc0⟩ := hrl 0 (by omega)
    rw [Nat.add_zero] at he0
    unfold retryRun
    rw [he0]
    simp only [hc0, if_pos]
    have hih := ih (attempt + 1)
      (fun j hj => by
        obtain ⟨e2, he2, hc2⟩ := hrl (j + 1) (by omega)
        exact ⟨e2, by rw [show attempt + 1 + j = attempt + (j + 1) by omega]; exact he2, hc2⟩)
      e (by rw [show attempt + 1 + r = attempt + (r + 1) by omega]; exact herr)
    exact ⟨hih.1, by omega⟩

/-- Counterexample to C4 as stated: the claim allows at most 5 attempts total,
with the 5th rate-limited failure exhausting the budget; but `p-retry` with
`retries: 5` performs one initial attempt plus up to 5 retries, so an
operation that is rate-limited five times is invoked a sixth time — and here
succeeds, returning 42 after 6 attempts. -/
theorem retry_attempts_counterexample :
    (retry rateLimitedFiveThenOk).attempts = 6 ∧
    (retry rateLimitedFiveThenOk).result = .ok 42 ∧
    (retry rateLimitedFiveThenOk).backoffs = [1000, 2000, 4000, 8000, 16000] :=
  ⟨rfl, rfl, rfl⟩

/-- Claim C4, corrected: the retry wrapper makes at most 6 attempts total (one
initial attempt plus 5 retries); rate-limited failures are retried with
exponential backoff 1000ms, 2000ms, 4000ms, ... (factor 2); an attempt
failing with any other classification aborts immediately — after exactly the
attempts made so far — and propagates the original error; exhausting the
budget (rate-limited on all six attempts) propagates the last rate-limit
error; an operation failing rate-limited k ≤ 5 times then succeeding returns
the success value. -/
theorem retry_policy_amended {α : Type} (fn : Nat → Except AwsError α) :
    (retry fn).attempts ≤ 6 ∧
    (retry fn).backoffs =
      (List.range ((retry fn).attempts - 1)).map (fun i => 1000 * 2 ^ i) ∧
    (∀ k v, k ≤ 5 →
      (∀ j, j < k → ∃ e, fn j = .error e ∧ e.code = "TooManyRequestsException") →
      fn k = .ok v → (retry fn).result = .ok v ∧ (retry fn).attempts = k + 1) ∧
    (∀ k e, k ≤ 5 →
      (∀ j, j < k → ∃ e2, fn j = .error e2 ∧ e2.code = "TooManyRequestsException") →
      fn k = .error e → e.code ≠ "TooManyRequestsException" →
      (retry fn).result = .error e ∧ (retry fn).attempts = k + 1) ∧
    ((∀ j, j ≤ 5 → ∃ e, fn j = .error e ∧ e.code = "TooManyRequestsException") →
      ∀ e, fn 5 = .error e →
      (retry fn).result = .error e ∧ (retry fn).attempts = 6) := by
  refine ⟨retryRun_attempts_le fn 1000 2 5 0, ?_, ?_, ?_, ?_⟩
  · have h := retryRun_backoffs fn 1000 2 5 0
    rw [retry] at *
    rw [h]
    apply List.map_congr_left
    intro a _
    rw [Nat.zero_add]
  · intro k v hk hrl hok
    exact retryRun_ok fn 1000 2 v k 5 0 hk
      (fun j hj => by simpa using hrl j hj) (by simpa using hok)
  · intro k e hk hrl herr hcode
    exact retryRun_abort fn 1000 2 e k 5 0 hk
      (fun j hj => by simpa using hrl j hj) (by simpa using herr) hcode
  · intro hrl e herr
    exact retryRun_exhaust fn 1000 2 5 0
      (fun j hj => by simpa using hrl j hj) e (by simpa using herr)

/-- Witness for C4: an always-succeeding operation returns its value on the
first attempt. -/
theorem retry_policy_amended_witness :
    (retry alwaysOk).result = .ok 7 ∧ (retry alwaysOk).attempts = 0 + 1 :=
  (retry_policy_amended alwaysOk).2.2.1 0 7 (by omega)
    (fun j hj => absurd hj (by omega)) rfl

end AwsApiGateway

namespace AwsApiGateway

lemma createPath_succ (resources : List ResourceItem)
    (createResource : String → String → Except AwsError ResourceItem)
    (path : String) (fuel : Nat) :
    createPath resources createResource path (fuel + 1) =
      (match getPathId resources (some path) with
       | some pathId => .ok pathId
       | none =>
         match createPathParent resources createResource path fuel with
         | .error e => .error e
         | .ok parentId =>
           match createResource (lastPathPart path) parentId with
           | .ok created => .ok created.id
           | .error e => .error e) := rfl

/-- Counterexample to C5 as stated: the path `/x` is absent from the listing,
the create call fails because the node already exists (a concurrent creator
won the race), yet `createPath` does not re-query and accept the winner — it
propagates the conflict error unchanged, because `apig.createResource` at
`src/utils.js:240` is not wrapped in any try/catch. -/
theorem createPath_conflict_counterexample :
    createPath ceResources conflictingCreate "/x" 5 =
      .error ⟨"ConflictException"⟩ :=
  rfl

/-- Claim C5, corrected: `createPath` tolerates an already-existing node only
through its initial listing query — when the path is already listed it
returns that node's id without calling create; once the create call is
issued, any failure, including the node-already-exists conflict, propagates
unchanged (there is no re-query), so no failure reason is tolerated at the
create step. -/
theorem createPath_error_propagation (resources : List ResourceItem)
    (createResource : String → String → Except AwsError ResourceItem)
    (path : String) (fuel : Nat) :
    (∀ pid, getPathId resources (some path) = some pid →
      createPath resources createResource path (fuel + 1) = .ok pid) ∧
    (getPathId resources (some path) = none →
      ∀ pid e, createPathParent resources createResource path fuel = .ok pid →
        createResource (lastPathPart path) pid = .error e →
        createPath resources createResource path (fuel + 1) = .error e) := by
  constructor
  · intro pid hfound
    rw [createPath_succ, hfound]
  · intro hnone pid e hparent hcreate
    rw [createPath_succ, hnone]
    simp only [hparent, hcreate]

/-- Witness for C5: resolving the root path returns the listed root id without
any create call. -/
theorem createPath_error_propagation_witness :
    createPath ceResources conflictingCreate "/" 5 = .ok "root-id" :=
  (createPath_error_propagation ceResources conflictingCreate "/" 4).1 "root-id" rfl

/-- Counterexample to C6 as stated: the claim allows one retry after a conflict
(at most 2 put calls); under an oracle that conflicts twice and then
succeeds, the source issues a third put call (sleeping 2s before each retry)
and succeeds — the recursion of `src/utils.js:356` carries no retry budget. -/
theorem createIntegration_retry_counterexample :
    (createIntegration conflictTwiceThenOk (.ok ()) false 0 10).putCalls = 3 ∧
    (createIntegration conflictTwiceThenOk (.ok ()) false 0 10).result = .ok () ∧
    (createIntegration conflictTwiceThenOk (.ok ()) false 0 10).sleeps = [2000, 2000] :=
  ⟨rfl, rfl, rfl⟩

lemma createIntegration_succ (put : Nat → Except AwsError Unit)
    (perm : Except AwsError Unit) (lam : Bool) (call fuel : Nat) :
    createIntegration put perm lam call (fuel + 1) =
      (match put call with
       | .ok _ =>
         if lam then
           match perm with
           | .ok _ => ⟨.ok (), 1, []⟩
           | .error e =>
             if e.code = "ResourceConflictException" then ⟨.ok (), 1, []⟩
             else ⟨.error e, 1, []⟩
         else ⟨.ok (), 1, []⟩
       | .error e =>
         if e.code = "ConflictException" then
           let next := createIntegration put perm lam (call + 1) fuel
           ⟨next.result, next.putCalls + 1, 2000 :: next.sleeps⟩
         else ⟨.error e, 1, []⟩) := rfl

lemma createIntegration_run (put : Nat → Except AwsError Unit) (lam : Bool) :
    ∀ k call fuel, k < fuel →
      (∀ j, j < k → put (call + j) = .error ⟨"ConflictException"⟩) →
      ((put (call + k) = .ok () →
        (createIntegration put (.ok ()) lam call fuel).result = .ok () ∧
        (createIntegration put (.ok ()) lam call fuel).putCalls = k + 1 ∧
        (createIntegration put (.ok ()) lam call fuel).sleeps = List.replicate k 2000) ∧
       (∀ e, put (call + k) = .error e → e.code ≠ "ConflictException" →
        (createIntegration put (.ok ()) lam call fuel).result = .error e ∧
        (createIntegration put (.ok ()) lam call fuel).putCalls = k + 1)) := by
  intro k
  induction k with
  | zero =>
    intro call fuel hf _
    cases fuel with
    | zero => omega
    | succ f =>
      constructor
      · intro hok
        rw [Nat.add_zero] at hok
        have hred : createIntegration put (.ok ()) lam call (f + 1) = ⟨.ok (), 1, []⟩ := by
          rw [createIntegration_succ, hok]
          cases lam <;> rfl
        rw [hred]
        exact ⟨rfl, rfl, rfl⟩
      · intro e herr hcode
        rw [Nat.add_zero] at herr
        have hred : createIntegration put (.ok ()) lam call (f + 1) = ⟨.error e, 1, []⟩ := by
          rw [createIntegration_succ, herr]
          exact if_neg hcode
        rw [hred]
        exact ⟨rfl, rfl⟩
  | succ k2 ih =>
    intro call fuel hf hconf
    cases fuel with
    | zero => omega
    | succ f =>
      have hc0 : put (call + 0) = .error ⟨"ConflictException"⟩ :=
        hconf 0 (Nat.succ_pos k2)
      rw [Nat.add_zero] at hc0
      have hih := ih (call + 1) f (by omega)
        (fun j hj => by
          rw [show call + 1 + j = call + (j + 1) by omega]
          exact hconf (j + 1) (by omega))
      have hred : createIntegration put (.ok ()) lam call (f + 1) =
          ⟨(createIntegration put (.ok ()) lam (call + 1) f).result,
           (createIntegration put (.ok ()) lam (call + 1) f).putCalls + 1,
           2000 :: (createIntegration put (.ok ()) lam (call + 1) f).sleeps⟩ := by
        rw [createIntegration_succ, hc0]
        rfl
      constructor
      · intro hok
        rw [show call + (k2 + 1) = call + 1 + k2 by omega] at hok
        obtain ⟨h1, h2, h3⟩ := hih.1 hok
        rw [hred]
        refine ⟨h1, ?_, ?_⟩
        · show (createIntegration put (.ok ()) lam (call + 1) f).putCalls + 1 = k2 + 1 + 1
          omega
        · show 2000 :: (createIntegration put (.ok ()) lam (call + 1) f).sleeps =
            List.replicate (k2 + 1) 2000
          rw [h3, List.replicate_succ]
      · intro e herr hcode
        rw [show call + (k2 + 1) = call + 1 + k2 by omega] at herr
        obtain ⟨h1, h2⟩ := hih.2 e herr hcode
        rw [hred]
        refine ⟨h1, ?_⟩
        show (createIntegration put (.ok ()) lam (call + 1) f).putCalls + 1 = k2 + 1 + 1
        omega

/-- Claim C6, corrected: on each `ConflictException` from the integration put,
the source sleeps the fixed 2-second cool-down and retries recursively with
no bound on the number of retries — for every k below the modelling fuel, k
consecutive conflicts followed by a success yield k+1 put calls and k
cool-down sleeps (not at most one retry); a non-conflict failure at any point
propagates immediately as fatal. -/
theorem createIntegration_retry_amended (put : Nat → Except AwsError Unit) (lam : Bool)
    (k fuel : Nat) (hf : k < fuel)
    (hconf : ∀ j, j < k → put j = .error ⟨"ConflictException"⟩) :
    ((put k = .ok () →
      (createIntegration put (.ok ()) lam 0 fuel).result = .ok () ∧
      (createIntegration put (.ok ()) lam 0 fuel).putCalls = k + 1 ∧
      (createIntegration put (.ok ()) lam 0 fuel).sleeps = List.replicate k 2000) ∧
     (∀ e, put k = .error e → e.code ≠ "ConflictException" →
      (createIntegration put (.ok ()) lam 0 fuel).result = .error e ∧
      (createIntegration put (.ok ()) lam 0 fuel).putCalls = k + 1)) := by
  have h := createIntegration_run put lam k 0 fuel hf
    (fun j hj => by simpa using hconf j hj)
  constructor
  · intro hok
    exact h.1 (by simpa using hok)
  · intro e herr hcode
    exact h.2 e (by simpa using herr) hcode

/-- Witness for C6: a conflict-free put succeeds with a single call and no
cool-down sleeps. -/
theorem createIntegration_retry_amended_witness :
    (createIntegration alwaysPutOk (.ok ()) false 0 1).result = .ok () ∧
    (createIntegration alwaysPutOk (.ok ()) false 0 1).putCalls = 0 + 1 ∧
    (createIntegration alwaysPutOk (.ok ()) false 0 1).sleeps = List.replicate 0 2000 :=
  (createIntegration_retry_amended alwaysPutOk false 0 1 (by omega)
    (fun j hj => absurd hj (by omega))).1 rfl

/-- Claim C10, confirmed: when the remote method lookup inside
`endpointExists` fails with any error other than `NotFoundException`, the
catch block falls through and the function returns JS `undefined` (modelled
`none`), which is falsy — so `validateEndpoint` treats the endpoint as
non-existent, skips the foreign-ownership conflict check, and returns the
validated endpoint instead of propagating the remote failure. -/
theorem endpointExists_swallows_errors (resources : List ResourceItem)
    (getMethod : String → String → Except AwsError Unit)
    (rid : String) (e : AwsError) (method path : String)
    (raw : RawEndpoint) (stateEndpoints : List StateEndpoint)
    (apiId stage region : String) (v : ValidatedEndpoint)
    (hrid : getPathId resources (some path) = some rid)
    (herr : getMethod rid method = .error e)
    (hcode : e.code ≠ "NotFoundException") :
    endpointExists resources getMethod method path = none ∧
    (validateEndpointObject raw apiId stage region = .ok v → v.method = method → v.path = path →
      validateEndpoint resources getMethod raw stateEndpoints apiId stage region = .ok v) := by
  have hee : endpointExists resources getMethod method path = none := by
    unfold endpointExists
    rw [hrid]
    show (match getMethod rid method with
          | Except.ok _ => some true
          | Except.error e2 =>
            if e2.code = "NotFoundException" then some false else none) = none
    rw [herr]
    exact if_neg hcode
  refine ⟨hee, ?_⟩
  intro hok hm hp
  unfold validateEndpoint
  rw [hok]
  show (if truthy (endpointExists resources getMethod v.method v.path) = true then
          if myEndpoint stateEndpoints v.method v.path = true then Except.ok v
          else Except.error "endpoint already exists in provider"
        else Except.ok v) = Except.ok v
  rw [hm, hp, hee]
  rfl

/-- Witness for C10: with a throttled method lookup, the declared endpoint
`get /x` validates successfully even though the remote lookup failed. -/
theorem endpointExists_swallows_errors_witness :
    endpointExists oneResource throttledGetMethod "GET" "/x" = none ∧
    validateEndpoint oneResource throttledGetMethod ⟨some "get", some "/x"⟩ [] "a" "s" "r" =
      .ok { url := "https://a.execute-api.r.amazonaws.com/s/x", path := "/x",
            method := "GET" } :=
  ⟨(endpointExists_swallows_errors oneResource throttledGetMethod "r1" ⟨"ThrottlingException"⟩
      "GET" "/x" ⟨some "get", some "/x"⟩ [] "a" "s" "r"
      { url := "https://a.execute-api.r.amazonaws.com/s/x", path := "/x", method := "GET" }
      rfl rfl (by decide)).1,
   (endpointExists_swallows_errors oneResource throttledGetMethod "r1" ⟨"ThrottlingException"⟩
      "GET" "/x" ⟨some "get", some "/x"⟩ [] "a" "s" "r"
      { url := "https://a.execute-api.r.amazonaws.com/s/x", path := "/x", method := "GET" }
      rfl rfl (by decide)).2 rfl rfl rfl⟩

end AwsApiGateway

namespace AwsApiGateway

lemma removeResource_fst (st : ApiState) (ep : StateEndpoint) :
    (removeResource st ep).1 =
      { st with resources := st.resources.filter (fun r => r.id ≠ ep.id) } := rfl

lemma deleteFold_authorizers : ∀ (eps : List StateEndpoint) (s : ApiState),
    (eps.foldl (fun st ep => (removeResource st ep).1) s).authorizers = s.authorizers := by
  intro eps
  induction eps with
  | nil => intro s; rfl
  | cons ep tl ih =>
    intro s
    rw [List.foldl_cons, ih]
    rfl

lemma deleteFold_sublist : ∀ (eps : List StateEndpoint) (s : ApiState),
    ((eps.foldl (fun st ep => (removeResource st ep).1) s).resources).Sublist s.resources := by
  intro eps
  induction eps with
  | nil => intro s; exact List.Sublist.refl _
  | cons ep tl ih =>
    intro s
    rw [List.foldl_cons]
    exact (ih _).trans (List.filter_sublist _)

lemma deleteFold_mem : ∀ (eps : List StateEndpoint) (s : ApiState) (r : ResourceItem),
    r ∈ s.resources → (∀ ep, ep ∈ eps → r.id ≠ ep.id) →
    r ∈ (eps.foldl (fun st ep => (removeResource st ep).1) s).resources := by
  intro eps
  induction eps with
  | nil => intro s r hr _; exact hr
  | cons ep tl ih =>
    intro s r hr hne
    rw [List.foldl_cons]
    apply ih
    · rw [removeResource_fst]
      show r ∈ s.resources.filter (fun r2 => r2.id ≠ ep.id)
      rw [List.mem_filter]
      exact ⟨hr, by
        rw [decide_eq_true_iff]
        exact hne ep (List.mem_cons_self ep tl)⟩
    · intro ep2 h2
      exact hne ep2 (List.mem_cons_of_mem ep h2)

lemma deleteFold_length_le : ∀ (eps : List StateEndpoint) (s : ApiState),
    (eps.foldl (fun st ep => (removeResource st ep).1) s).resources.length ≤
      s.resources.length := by
  intro eps s
  exact (deleteFold_sublist eps s).length_le

lemma deleteFold_length_lt : ∀ (eps : List StateEndpoint) (s : ApiState),
    (∃ ep, ep ∈ eps ∧ ∃ r, r ∈ s.resources ∧ r.id = ep.id) →
    (eps.foldl (fun st ep => (removeResource st ep).1) s).resources.length <
      s.resources.length := by
  intro eps
  induction eps with
  | nil =>
    rintro s ⟨ep, hmem, _⟩
    exact absurd hmem (List.not_mem_nil ep)
  | cons ep0 tl ih =>
    rintro s ⟨ep, hmem, r, hr, hid⟩
    rw [List.foldl_cons]
    have hfil : ((removeResource s ep0).1.resources.length < s.resources.length) ∨
        ((removeResource s ep0).1.resources.length = s.resources.length) := by
      have h1 := List.length_filter_le (fun r2 => decide (r2.id ≠ ep0.id)) s.resources
      have h2 : (removeResource s ep0).1.resources.length =
          (s.resources.filter (fun r2 => decide (r2.id ≠ ep0.id))).length := rfl
      omega
    rcases List.mem_cons.mp hmem with rfl | htl
    · have hlt : (removeResource s ep).1.resources.length < s.resources.length := by
        rw [removeResource_fst]
        rw [List.length_filter_lt_length_iff_exists]
        exact ⟨r, hr, by simp [hid]⟩
      calc (tl.foldl (fun st ep2 => (removeResource st ep2).1) ((removeResource s ep).1)).resources.length
          ≤ (removeResource s ep).1.resources.length := deleteFold_length_le tl _
        _ < s.resources.length := hlt
    · by_cases hin : r ∈ (removeResource s ep0).1.resources
      · have hlt := ih ((removeResource s ep0).1) ⟨ep, htl, r, hin, hid⟩
        rcases hfil with h | h
        · omega
        · omega
      · have hlt : (removeResource s ep0).1.resources.length < s.resources.length := by
          rw [removeResource_fst] at hin ⊢
          rw [List.length_filter_lt_length_iff_exists]
          refine ⟨r, hr, ?_⟩
          intro hkeep
          exact hin (List.mem_filter.mpr ⟨hr, hkeep⟩)
        have hle := deleteFold_length_le tl ((removeResource s ep0).1)
        omega

end AwsApiGateway

namespace AwsApiGateway

lemma removeResources_succ (s : ApiState) (eps : List StateEndpoint) (fuel : Nat) :
    removeResources s eps (fuel + 1) =
      (if (eps.filter (resourceQualifies s.resources)).isEmpty then (s, [AwsCall.getResources])
       else
         ((removeResources ((eps.filter (resourceQualifies s.resources)).foldl
             (fun st ep => (removeResource st ep).1) s) eps fuel).1,
          (AwsCall.getResources ::
            (eps.filter (resourceQualifies s.resources)).map
              (fun ep => AwsCall.deleteResource ep.id)) ++
          (removeResources ((eps.filter (resourceQualifies s.resources)).foldl
             (fun st ep => (removeResource st ep).1) s) eps fuel).2)) := rfl

lemma resourceQualifies_true_iff (items : List ResourceItem) (ep : StateEndpoint) :
    resourceQualifies items ep = true ↔
      ∃ r, items.find? (fun r2 => r2.id == ep.id) = some r ∧
        r.resourceMethods = [] ∧
        (∀ c, c ∈ items → c.parentId ≠ some ep.id) := by
  unfold resourceQualifies
  cases hf : items.find? (fun r2 => r2.id == ep.id) with
  | none => simp
  | some r =>
    simp only [Bool.and_eq_true, List.isEmpty_eq_true, List.filter_eq_nil_iff, Option.some.injEq]
    constructor
    · rintro ⟨h1, h2⟩
      refine ⟨r, rfl, List.isEmpty_eq_true.mp (by simpa using h1), ?_⟩
      intro c hc hpc
      have := h2 c hc
      rw [hpc] at this
      simp at this
    · rintro ⟨r2, hr2, hm, hc⟩
      subst hr2
      refine ⟨by simpa using List.isEmpty_eq_true.mpr hm, ?_⟩
      intro c hcmem
      rw [Bool.not_eq_true]
      rw [beq_eq_false_iff_ne]
      exact hc c hcmem

lemma removeResources_sublist : ∀ (fuel : Nat) (s : ApiState) (eps : List StateEndpoint),
    ((removeResources s eps fuel).1.resources).Sublist s.resources := by
  intro fuel
  induction fuel with
  | zero => intro s eps; exact List.Sublist.refl _
  | succ f ih =>
    intro s eps
    rw [removeResources_succ]
    split
    · exact List.Sublist.refl _
    · exact (ih _ eps).trans (deleteFold_sublist _ s)

lemma removeResources_authorizers : ∀ (fuel : Nat) (s : ApiState) (eps : List StateEndpoint),
    (removeResources s eps fuel).1.authorizers = s.authorizers := by
  intro fuel
  induction fuel with
  | zero => intro s eps; rfl
  | succ f ih =>
    intro s eps
    rw [removeResources_succ]
    split
    · rfl
    · rw [ih _ eps, deleteFold_authorizers]

lemma nodup_ids_inj {items : List ResourceItem}
    (hnodup : (items.map (fun r2 => r2.id)).Nodup) :
    ∀ r1, r1 ∈ items → ∀ r2, r2 ∈ items → r1.id = r2.id → r1 = r2 := by
  intro r1 h1 r2 h2 hid
  exact List.inj_on_of_nodup_map hnodup h1 h2 hid

lemma removeResources_keeps_methodful :
    ∀ (fuel : Nat) (s : ApiState) (eps : List StateEndpoint) (r : ResourceItem),
      (s.resources.map (fun r2 => r2.id)).Nodup →
      r ∈ s.resources → r.resourceMethods ≠ [] →
      r ∈ (removeResources s eps fuel).1.resources := by
  intro fuel
  induction fuel with
  | zero => intro s eps r _ hr _; exact hr
  | succ f ih =>
    intro s eps r hnodup hr hm
    rw [removeResources_succ]
    split
    · exact hr
    · have hne : ∀ ep, ep ∈ eps.filter (resourceQualifies s.resources) → r.id ≠ ep.id := by
        intro ep hep hid
        have hq := (List.mem_filter.mp hep).2
        obtain ⟨r2, hfind, hm2, _⟩ := (resourceQualifies_true_iff s.resources ep).mp hq
        have hr2mem := List.mem_of_find?_eq_some hfind
        have hr2id : r2.id = ep.id := by
          have := List.find?_some hfind
          exact beq_iff_eq.mp this
        have : r2 = r := nodup_ids_inj hnodup r2 hr2mem r hr (by rw [hr2id, ← hid])
        rw [this] at hm2
        exact hm hm2
      have hmem1 : r ∈ ((eps.filter (resourceQualifies s.resources)).foldl
          (fun st ep => (removeResource st ep).1) s).resources :=
        deleteFold_mem _ s r hr hne
      have hnodup1 : (((eps.filter (resourceQualifies s.resources)).foldl
          (fun st ep => (removeResource st ep).1) s).resources.map
            (fun r2 => r2.id)).Nodup :=
        List.Nodup.sublist (List.Sublist.map _ (deleteFold_sublist _ s)) hnodup
      exact ih _ eps r hnodup1 hmem1 hm

lemma removeResources_keeps_parent :
    ∀ (fuel : Nat) (s : ApiState) (eps : List StateEndpoint) (r c : ResourceItem),
      r ∈ s.resources →
      c ∈ (removeResources s eps fuel).1.resources → c.parentId = some r.id →
      r ∈ (removeResources s eps fuel).1.resources := by
  intro fuel
  induction fuel with
  | zero => intro s eps r c hr _ _; exact hr
  | succ f ih =>
    intro s eps r c hr hc hpc
    rw [removeResources_succ] at hc ⊢
    revert hc
    split
    · intro _; exact hr
    · intro hc
      have hcs1 : c ∈ ((eps.filter (resourceQualifies s.resources)).foldl
          (fun st ep => (removeResource st ep).1) s).resources :=
        (removeResources_sublist f _ eps).subset hc
      have hcs : c ∈ s.resources := (deleteFold_sublist _ s).subset hcs1
      have hne : ∀ ep, ep ∈ eps.filter (resourceQualifies s.resources) → r.id ≠ ep.id := by
        intro ep hep hid
        have hq := (List.mem_filter.mp hep).2
        obtain ⟨r2, _, _, hnochild⟩ := (resourceQualifies_true_iff s.resources ep).mp hq
        exact hnochild c hcs (by rw [hpc, hid])
      have hmem1 : r ∈ ((eps.filter (resourceQualifies s.resources)).foldl
          (fun st ep => (removeResource st ep).1) s).resources :=
        deleteFold_mem _ s r hr hne
      exact ih _ eps r c hmem1 hc hpc

lemma removeResources_fixed_point :
    ∀ (fuel : Nat) (s : ApiState) (eps : List StateEndpoint),
      s.resources.length < fuel →
      ∀ ep, ep ∈ eps → resourceQualifies (removeResources s eps fuel).1.resources ep = false := by
  intro fuel
  induction fuel with
  | zero => intro s eps h; omega
  | succ f ih =>
    intro s eps hlen ep hep
    rw [removeResources_succ]
    split
    · rename_i hempty
      have hnil := List.isEmpty_eq_true.mp hempty
      have := List.filter_eq_nil_iff.mp hnil ep hep
      exact Bool.not_eq_true _ |>.mp this
    · rename_i hnonempty
      have hne : eps.filter (resourceQualifies s.resources) ≠ [] := by
        intro hc
        rw [hc] at hnonempty
        exact hnonempty rfl
      obtain ⟨ep0, hep0⟩ := List.exists_mem_of_ne_nil _ hne
      have hq := (List.mem_filter.mp hep0).2
      obtain ⟨r2, hfind, _, _⟩ := (resourceQualifies_true_iff s.resources ep0).mp hq
      have hr2mem := List.mem_of_find?_eq_some hfind
      have hr2id : r2.id = ep0.id := by
        have := List.find?_some hfind
        exact beq_iff_eq.mp this
      have hlt : ((eps.filter (resourceQualifies s.resources)).foldl
          (fun st ep2 => (removeResource st ep2).1) s).resources.length <
          s.resources.length :=
        deleteFold_length_lt _ s ⟨ep0, hep0, r2, hr2mem, hr2id⟩
      exact ih _ eps (by omega) ep hep

end AwsApiGateway

namespace AwsApiGateway

/-- Claim C2, confirmed (under the remote invariant that resource ids in a
listing are distinct): `removeResources` never deletes a node that still has
a bound method (methods are untouched by this function, so a node with a
method at the start survives every pass); a node is deleted only if it had no
bound methods; a node whose child is still present at the end was never
deleted; and with enough fuel (one pass per resource suffices, as each
repeated pass has deleted at least one node) the scan-and-delete pass reaches
the fixed point where no target endpoint's node qualifies for deletion. -/
theorem removeResources_gc_safety (s : ApiState) (eps : List StateEndpoint) (fuel : Nat)
    (hnodup : (s.resources.map (fun r2 => r2.id)).Nodup) :
    (∀ r, r ∈ s.resources → r.resourceMethods ≠ [] →
      r ∈ (removeResources s eps fuel).1.resources) ∧
    (∀ r, r ∈ s.resources → r ∉ (removeResources s eps fuel).1.resources →
      r.resourceMethods = []) ∧
    (∀ r c, r ∈ s.resources → c ∈ (removeResources s eps fuel).1.resources →
      c.parentId = some r.id → r ∈ (removeResources s eps fuel).1.resources) ∧
    (s.resources.length < fuel →
      ∀ ep, ep ∈ eps →
        resourceQualifies (removeResources s eps fuel).1.resources ep = false) := by
  refine ⟨fun r hr hm => removeResources_keeps_methodful fuel s eps r hnodup hr hm,
    ?_,
    fun r c hr hc hpc => removeResources_keeps_parent fuel s eps r c hr hc hpc,
    fun hlen ep hep => removeResources_fixed_point fuel s eps hlen ep hep⟩
  intro r hr hnot
  by_contra hne
  exact hnot (removeResources_keeps_methodful fuel s eps r hnodup hr hne)

/-- Witness for C2: the node `/a` hosting a GET method survives GC targeting
it, and at the fixed point it no longer qualifies. -/
theorem removeResources_gc_safety_witness :
    (⟨"ra", "/a", some "root", ["GET"]⟩ : ResourceItem) ∈
      (removeResources sWitness epsWitness 3).1.resources ∧
    resourceQualifies (removeResources sWitness epsWitness 3).1.resources
      ⟨"GET", "/a", "ra", none⟩ = false :=
  ⟨(removeResources_gc_safety sWitness epsWitness 3 (by decide)).1
      ⟨"ra", "/a", some "root", ["GET"]⟩ (by decide) (by decide),
   (removeResources_gc_safety sWitness epsWitness 3 (by decide)).2.2.2 (by decide)
      ⟨"GET", "/a", "ra", none⟩ (by decide)⟩

end AwsApiGateway

namespace AwsApiGateway

lemma removeAuthorizer_snd (s : ApiState) (ep : StateEndpoint) :
    (removeAuthorizer s ep).2 = authTraceOf ep := by
  unfold removeAuthorizer authTraceOf
  cases ep.authorizerId <;> rfl

lemma removeAuthorizer_fst_resources (s : ApiState) (ep : StateEndpoint) :
    (removeAuthorizer s ep).1.resources = s.resources := by
  unfold removeAuthorizer
  cases ep.authorizerId <;> rfl

lemma foldl_trace (g : ApiState → StateEndpoint → ApiState × List AwsCall)
    (gt : StateEndpoint → List AwsCall) (hg : ∀ s ep, (g s ep).2 = gt ep) :
    ∀ (l : List StateEndpoint) (s : ApiState) (tr : List AwsCall),
      (l.foldl (fun acc ep => ((g acc.1 ep).1, acc.2 ++ (g acc.1 ep).2)) (s, tr)).2 =
        tr ++ l.flatMap gt ∧
      (l.foldl (fun acc ep => ((g acc.1 ep).1, acc.2 ++ (g acc.1 ep).2)) (s, tr)).1 =
        l.foldl (fun st ep => (g st ep).1) s := by
  intro l
  induction l with
  | nil =>
    intro s tr
    exact ⟨by simp, rfl⟩
  | cons ep tl ih =>
    intro s tr
    rw [List.foldl_cons, List.foldl_cons]
    have h2 := ih ((g s ep).1) (tr ++ (g s ep).2)
    refine ⟨?_, h2.2⟩
    rw [h2.1, hg, List.flatMap_cons, List.append_assoc]

lemma removeMethods_eq (s : ApiState) (l : List StateEndpoint) :
    removeMethods s l =
      l.foldl (fun acc ep => ((removeMethod acc.1 ep).1, acc.2 ++ (removeMethod acc.1 ep).2))
        (s, []) := rfl

lemma removeAuthorizers_eq (s : ApiState) (l : List StateEndpoint) :
    removeAuthorizers s l =
      l.foldl
        (fun acc ep => ((removeAuthorizer acc.1 ep).1, acc.2 ++ (removeAuthorizer acc.1 ep).2))
        (s, []) := rfl

lemma removeMethods_trace (s : ApiState) (l : List StateEndpoint) :
    (removeMethods s l).2 =
      l.flatMap (fun ep => [AwsCall.deleteMethod ep.id ep.method]) := by
  rw [removeMethods_eq]
  have := (foldl_trace removeMethod (fun ep => [AwsCall.deleteMethod ep.id ep.method])
    (fun s2 ep => rfl) l s []).1
  rw [this]
  rfl

lemma removeAuthorizers_trace (s : ApiState) (l : List StateEndpoint) :
    (removeAuthorizers s l).2 = l.flatMap authTraceOf := by
  rw [removeAuthorizers_eq]
  have := (foldl_trace removeAuthorizer authTraceOf removeAuthorizer_snd l s []).1
  rw [this]
  rfl

lemma removeAuthorizers_resources (s : ApiState) (l : List StateEndpoint) :
    (removeAuthorizers s l).1.resources = s.resources := by
  rw [removeAuthorizers_eq]
  rw [(foldl_trace removeAuthorizer authTraceOf removeAuthorizer_snd l s []).2]
  induction l generalizing s with
  | nil => rfl
  | cons ep tl ih =>
    rw [List.foldl_cons, ih, removeAuthorizer_fst_resources]

lemma removeMethod_fst_resources_ids (st : ApiState) (ep : StateEndpoint) :
    (removeMethod st ep).1.resources.map (fun r => r.id) =
      st.resources.map (fun r => r.id) := by
  show ((st.resources.map (fun r =>
      if r.id = ep.id
      then { r with resourceMethods := r.resourceMethods.filter (fun mth => mth ≠ ep.method) }
      else r)).map (fun r => r.id)) = st.resources.map (fun r => r.id)
  rw [List.map_map]
  apply List.map_congr_left
  intro r _
  by_cases h : r.id = ep.id
  · simp [h]
  · simp [h]

lemma removeMethods_resources_ids (l : List StateEndpoint) (s : ApiState) :
    (removeMethods s l).1.resources.map (fun r => r.id) =
      s.resources.map (fun r => r.id) := by
  rw [removeMethods_eq]
  rw [(foldl_trace removeMethod (fun ep => [AwsCall.deleteMethod ep.id ep.method])
    (fun s2 ep => rfl) l s []).2]
  induction l generalizing s with
  | nil => rfl
  | cons ep tl ih =>
    rw [List.foldl_cons, ih, removeMethod_fst_resources_ids]

lemma removeResources_trace_calls :
    ∀ (fuel : Nat) (s : ApiState) (eps : List StateEndpoint) (c : AwsCall),
      c ∈ (removeResources s eps fuel).2 →
      c = AwsCall.getResources ∨ ∃ i, c = AwsCall.deleteResource i := by
  intro fuel
  induction fuel with
  | zero =>
    intro s eps c hc
    exact absurd hc (List.not_mem_nil c)
  | succ f ih =>
    intro s eps c hc
    rw [removeResources_succ] at hc
    revert hc
    split
    · intro hc
      rcases List.mem_cons.mp hc with h | h
      · exact Or.inl h
      · exact absurd h (List.not_mem_nil c)
    · intro hc
      rcases List.mem_append.mp hc with h | h
      · rcases List.mem_cons.mp h with h2 | h2
        · exact Or.inl h2
        · obtain ⟨ep, _, hep⟩ := List.mem_map.mp h2
          exact Or.inr ⟨ep.id, hep.symm⟩
      · exact ih _ eps c h

end AwsApiGateway

namespace AwsApiGateway

/-- Counterexample to C1 as stated: in the spec's scenario (prior state
contains `GET /old`, desired set empty), the call trace of
`removeOutdatedEndpoints` is resource-phase first (`getResources`, which
deletes nothing because `/old` still holds its GET method) and only then
`deleteMethod` — and the `/old` node is never removed: it is still present,
method-less, in the final state. The source orders the phases
`removeResources`, then `removeMethods`, then `removeAuthorizers`
(`src/utils.js:600-602`), not methods-first. -/
theorem removeOutdatedEndpoints_scenario_counterexample :
    (removeOutdatedEndpoints gcPriorState [] [staleGetOld] 3).2.1 =
      [AwsCall.getResources, AwsCall.deleteMethod "res-old" "GET"] ∧
    (⟨"res-old", "/old", some "root", []⟩ : ResourceItem) ∈
      (removeOutdatedEndpoints gcPriorState [] [staleGetOld] 3).1.resources :=
  ⟨rfl, by decide⟩

/-- Claim C1, corrected: the garbage-collection phase attempts resource-node
removal first, then removes the stale endpoints' method bindings, then
detaches stale authorizers; consequently a stale endpoint whose node still
holds any method binding when GC starts keeps its node for the whole run
(only the method is removed) — in the spec's scenario the `/old` node is not
removed. -/
theorem removeOutdatedEndpoints_phase_order (s : ApiState)
    (endpoints stateEndpoints : List StateEndpoint) (fuel : Nat)
    (hnodup : (s.resources.map (fun r2 => r2.id)).Nodup) :
    (removeOutdatedEndpoints s endpoints stateEndpoints fuel).2.1 =
      (removeResources s (classifyOutdated endpoints stateEndpoints).1 fuel).2 ++
      (removeMethods (removeResources s (classifyOutdated endpoints stateEndpoints).1 fuel).1
        (classifyOutdated endpoints stateEndpoints).1).2 ++
      (removeAuthorizers
        (removeMethods (removeResources s (classifyOutdated endpoints stateEndpoints).1 fuel).1
          (classifyOutdated endpoints stateEndpoints).1).1
        (classifyOutdated endpoints stateEndpoints).2).2 ∧
    (∀ r, r ∈ s.resources → r.resourceMethods ≠ [] →
      ∃ r2, r2 ∈ (removeOutdatedEndpoints s endpoints stateEndpoints fuel).1.resources ∧
        r2.id = r.id) := by
  constructor
  · rfl
  · intro r hr hm
    have h1 : r ∈ (removeResources s (classifyOutdated endpoints stateEndpoints).1
        fuel).1.resources :=
      removeResources_keeps_methodful fuel s _ r hnodup hr hm
    have hid2 : r.id ∈ ((removeMethods
        (removeResources s (classifyOutdated endpoints stateEndpoints).1 fuel).1
        (classifyOutdated endpoints stateEndpoints).1).1.resources.map (fun r2 => r2.id)) := by
      rw [removeMethods_resources_ids]
      exact List.mem_map.mpr ⟨r, h1, rfl⟩
    obtain ⟨r2, hr2, hid⟩ := List.mem_map.mp hid2
    refine ⟨r2, ?_, hid⟩
    show r2 ∈ (removeAuthorizers
        (removeMethods (removeResources s (classifyOutdated endpoints stateEndpoints).1 fuel).1
          (classifyOutdated endpoints stateEndpoints).1).1
        (classifyOutdated endpoints stateEndpoints).2).1.resources
    rw [removeAuthorizers_resources]
    exact hr2

/-- Witness for C1: the phase decomposition of the trace on the spec's
scenario. -/
theorem removeOutdatedEndpoints_phase_order_witness :
    (removeOutdatedEndpoints gcPriorState [] [staleGetOld] 3).2.1 =
      (removeResources gcPriorState (classifyOutdated [] [staleGetOld]).1 3).2 ++
      (removeMethods (removeResources gcPriorState (classifyOutdated [] [staleGetOld]).1 3).1
        (classifyOutdated [] [staleGetOld]).1).2 ++
      (removeAuthorizers
        (removeMethods (removeResources gcPriorState (classifyOutdated [] [staleGetOld]).1 3).1
          (classifyOutdated [] [staleGetOld]).1).1
        (classifyOutdated [] [staleGetOld]).2).2 :=
  (removeOutdatedEndpoints_phase_order gcPriorState [] [staleGetOld] 3 (by decide)).1

end AwsApiGateway

namespace AwsApiGateway

lemma classify_foldl (endpoints : List StateEndpoint) :
    ∀ (l : List StateEndpoint) (acc1 acc2 : List StateEndpoint),
      l.foldl
        (fun acc stateEndpoint =>
          let endpointInUse := endpoints.find?
            (fun e => e.method == stateEndpoint.method && e.path == stateEndpoint.path)
          let authorizerInUse := endpoints.find?
            (fun e => e.authorizerId == stateEndpoint.authorizerId)
          match endpointInUse with
          | none => (acc.1 ++ [stateEndpoint], acc.2)
          | some _ =>
            match authorizerInUse with
            | none => (acc.1, acc.2 ++ [stateEndpoint])
            | some _ => acc)
        (acc1, acc2) =
      (acc1 ++ l.filter (fun se =>
         (endpoints.find? (fun e => e.method == se.method && e.path == se.path)).isNone),
       acc2 ++ l.filter (fun se =>
         (endpoints.find? (fun e => e.method == se.method && e.path == se.path)).isSome &&
         (endpoints.find? (fun e => e.authorizerId == se.authorizerId)).isNone)) := by
  intro l
  induction l with
  | nil =>
    intro acc1 acc2
    simp
  | cons se tl ih =>
    intro acc1 acc2
    rw [List.foldl_cons]
    cases h1 : endpoints.find? (fun e => e.method == se.method && e.path == se.path) with
    | none =>
      simp only [h1]
      rw [ih]
      rw [List.filter_cons, List.filter_cons]
      simp only [h1, Option.isNone_none, Option.isSome_none, Bool.false_and, if_pos, if_neg]
      rw [List.append_assoc]
      simp
    | some e0 =>
      cases h2 : endpoints.find? (fun e => e.authorizerId == se.authorizerId) with
      | none =>
        simp only [h1, h2]
        rw [ih]
        rw [List.filter_cons, List.filter_cons]
        simp only [h1, h2, Option.isNone_none, Option.isNone_some, Option.isSome_some,
          Bool.true_and]
        rw [List.append_assoc]
        simp
      | some e1 =>
        simp only [h1, h2]
        rw [ih]
        rw [List.filter_cons, List.filter_cons]
        simp only [h1, h2, Option.isNone_some, Option.isSome_some, Bool.true_and,
          Bool.and_false]
        simp

lemma classifyOutdated_eq (endpoints l : List StateEndpoint) :
    classifyOutdated endpoints l =
      (l.filter (fun se =>
         (endpoints.find? (fun e => e.method == se.method && e.path == se.path)).isNone),
       l.filter (fun se =>
         (endpoints.find? (fun e => e.method == se.method && e.path == se.path)).isSome &&
         (endpoints.find? (fun e => e.authorizerId == se.authorizerId)).isNone)) := by
  unfold classifyOutdated
  rw [classify_foldl]
  simp

end AwsApiGateway

namespace AwsApiGateway

/-- Counterexample to C3 as stated: a prior endpoint that is itself stale (no
(method, path) match in the desired set) and whose authorizerId `auth-1` is
referenced by no desired endpoint does NOT have its authorizer detached: the
`else if` of `src/utils.js:593-597` only considers still-in-use endpoints for
authorizer detachment, so the authorizer survives and no `deleteAuthorizer`
call is issued. -/
theorem staleAuthorizer_not_detached_counterexample :
    (removeOutdatedEndpoints gcAuthState [] [staleAuthEndpoint] 3).1.authorizers = ["auth-1"] ∧
    AwsCall.deleteAuthorizer "auth-1" ∉
      (removeOutdatedEndpoints gcAuthState [] [staleAuthEndpoint] 3).2.1 :=
  ⟨rfl, by decide⟩

/-- Claim C3, corrected: `removeOutdatedEndpoints` detaches the authorizer of
exactly those prior endpoints that ARE still matched by (method, path) in the
desired set but whose authorizerId is referenced by no desired endpoint; a
stale prior endpoint is never considered for authorizer detachment, and a
`deleteAuthorizer aid` call appears in the run's trace exactly when such a
matched endpoint carries authorizer id `aid`. -/
theorem removeOutdatedEndpoints_authorizer_detach (s : ApiState)
    (endpoints stateEndpoints : List StateEndpoint) (fuel : Nat) (aid : String) :
    (∀ se, se ∈ (classifyOutdated endpoints stateEndpoints).2 ↔
      (se ∈ stateEndpoints ∧
       (∃ e, e ∈ endpoints ∧ e.method = se.method ∧ e.path = se.path) ∧
       (∀ e, e ∈ endpoints → e.authorizerId ≠ se.authorizerId))) ∧
    (AwsCall.deleteAuthorizer aid ∈
        (removeOutdatedEndpoints s endpoints stateEndpoints fuel).2.1 ↔
      ∃ se, se ∈ (classifyOutdated endpoints stateEndpoints).2 ∧
        se.authorizerId = some aid) := by
  constructor
  · intro se
    rw [classifyOutdated_eq]
    show se ∈ List.filter _ stateEndpoints ↔ _
    rw [List.mem_filter]
    constructor
    · rintro ⟨hmem, hcond⟩
      rw [Bool.and_eq_true] at hcond
      obtain ⟨hsome, hnone⟩ := hcond
      rw [Option.isSome_iff_exists] at hsome
      obtain ⟨e0, he0⟩ := hsome
      refine ⟨hmem, ?_, ?_⟩
      · refine ⟨e0, List.mem_of_find?_eq_some he0, ?_⟩
        have := List.find?_some he0
        rw [Bool.and_eq_true, beq_iff_eq, beq_iff_eq] at this
        exact this
      · intro e hemem heq
        rw [Option.isNone_iff_eq_none, List.find?_eq_none] at hnone
        exact hnone e hemem (by rw [beq_iff_eq]; exact heq)
    · rintro ⟨hmem, ⟨e0, he0mem, he0m, he0p⟩, hnoauth⟩
      refine ⟨hmem, ?_⟩
      rw [Bool.and_eq_true]
      constructor
      · rw [Option.isSome_iff_exists]
        have : ∃ e ∈ endpoints,
            (e.method == se.method && e.path == se.path) = true :=
          ⟨e0, he0mem, by rw [Bool.and_eq_true, beq_iff_eq, beq_iff_eq]; exact ⟨he0m, he0p⟩⟩
        rw [← List.find?_isSome] at this
        rw [Option.isSome_iff_exists] at this
        exact this
      · rw [Option.isNone_iff_eq_none, List.find?_eq_none]
        intro e hemem
        rw [Bool.not_eq_true, beq_eq_false_iff_ne]
        exact hnoauth e hemem
  · have htrace : (removeOutdatedEndpoints s endpoints stateEndpoints fuel).2.1 =
        (removeResources s (classifyOutdated endpoints stateEndpoints).1 fuel).2 ++
        (removeMethods
          (removeResources s (classifyOutdated endpoints stateEndpoints).1 fuel).1
          (classifyOutdated endpoints stateEndpoints).1).2 ++
        (removeAuthorizers
          (removeMethods
            (removeResources s (classifyOutdated endpoints stateEndpoints).1 fuel).1
            (classifyOutdated endpoints stateEndpoints).1).1
          (classifyOutdated endpoints stateEndpoints).2).2 := rfl
    rw [htrace]
    rw [List.mem_append, List.mem_append]
    constructor
    · rintro ((h | h) | h)
      · rcases removeResources_trace_calls fuel s _ _ h with h2 | ⟨i, h2⟩ <;> exact absurd h2 (by simp)
      · rw [removeMethods_trace, List.mem_flatMap] at h
        obtain ⟨ep, _, hmem⟩ := h
        simp at hmem
      · rw [removeAuthorizers_trace, List.mem_flatMap] at h
        obtain ⟨se, hsemem, hsetr⟩ := h
        refine ⟨se, hsemem, ?_⟩
        unfold authTraceOf at hsetr
        revert hsetr
        cases hauth : se.authorizerId with
        | none => intro hsetr; exact absurd hsetr (List.not_mem_nil _)
        | some a =>
          intro hsetr
          rcases List.mem_cons.mp hsetr with h2 | h2
          · exact absurd h2 (by simp)
          · rcases List.mem_cons.mp h2 with h3 | h3
            · rw [AwsCall.deleteAuthorizer.injEq] at h3
              rw [h3]
            · exact absurd h3 (List.not_mem_nil _)
    · rintro ⟨se, hsemem, hauth⟩
      refine Or.inr ?_
      rw [removeAuthorizers_trace, List.mem_flatMap]
      refine ⟨se, hsemem, ?_⟩
      unfold authTraceOf
      rw [hauth]
      exact List.mem_cons_of_mem _ (List.mem_cons_self _ _)

end AwsApiGateway

namespace AwsApiGateway

lemma schedulerStep_submit (s : SchedulerState) (t : Nat) :
    schedulerStep s (.submit t) =
      (match s.timeoutAt with
       | none => processNextQueueElement t { s with queueLength := s.queueLength + 1 }
       | some _ => { s with queueLength := s.queueLength + 1 }) := rfl

lemma schedulerStep_timerFire (s : SchedulerState) (t : Nat) :
    schedulerStep s (.timerFire t) = processNextQueueElement t s := rfl

lemma schedulerStep_complete (s : SchedulerState) (t : Nat) :
    schedulerStep s (.complete t) = { s with concurrency := s.concurrency - 1 } := rfl

lemma pnqe_inv (t : Nat) (s : SchedulerState)
    (hconc : s.concurrency ≤ MAX_CONCURRENCY)
    (hhigh : s.concurrencyHigh ≤ MAX_CONCURRENCY)
    (hsp : Spaced s.dispatchTimes)
    (hhead : ∀ d, s.dispatchTimes.head? = some d → d + MIN_DELAY ≤ t) :
    SchedulerInv t (processNextQueueElement t s) := by
  unfold processNextQueueElement
  by_cases hq : s.queueLength = 0
  · rw [if_pos hq]
    refine ⟨hconc, hhigh, hsp, ?_, ?_⟩
    · intro d u _ hu
      have hu2 : (none : Option Nat) = some u := hu
      exact absurd hu2 (by simp)
    · intro d hd _
      exact hhead d hd
  · rw [if_neg hq]
    by_cases hc : s.concurrency < MAX_CONCURRENCY
    · rw [if_pos hc]
      refine ⟨?_, ?_, ?_, ?_, ?_⟩
      · show s.concurrency + 1 ≤ MAX_CONCURRENCY
        omega
      · show max s.concurrencyHigh (s.concurrency + 1) ≤ MAX_CONCURRENCY
        omega
      · show Spaced (t :: s.dispatchTimes)
        rw [Spaced, List.chain'_cons']
        exact ⟨fun b hb => hhead b hb, hsp⟩
      · intro d u hd hu
        have hd2 : some t = some d := hd
        have hu2 : some (t + MIN_DELAY) = some u := hu
        have h1 := Option.some.inj hd2
        have h2 := Option.some.inj hu2
        omega
      · intro d hd hu
        have hu2 : some (t + MIN_DELAY) = (none : Option Nat) := hu
        exact absurd hu2 (by simp)
    · rw [if_neg hc]
      refine ⟨hconc, hhigh, hsp, ?_, ?_⟩
      · intro d u hd hu
        have hd2 : s.dispatchTimes.head? = some d := hd
        have hu2 : some (t + MIN_DELAY) = some u := hu
        have h2 := Option.some.inj hu2
        have := hhead d hd2
        omega
      · intro d hd hu
        have hu2 : some (t + MIN_DELAY) = (none : Option Nat) := hu
        exact absurd hu2 (by simp)

lemma submit_inv (now t : Nat) (s : SchedulerState)
    (hinv : SchedulerInv now s) (hnow : now ≤ t) :
    SchedulerInv t (schedulerStep s (.submit t)) := by
  obtain ⟨hconc, hhigh, hsp, hsome, hnone⟩ := hinv
  rw [schedulerStep_submit]
  cases ht : s.timeoutAt with
  | none =>
    show SchedulerInv t (processNextQueueElement t
      { queueLength := s.queueLength + 1, concurrency := s.concurrency, timeoutAt := none,
        dispatchTimes := s.dispatchTimes, concurrencyHigh := s.concurrencyHigh })
    apply pnqe_inv
    · exact hconc
    · exact hhigh
    · exact hsp
    · intro d hd
      have hd2 : s.dispatchTimes.head? = some d := hd
      have := hnone d hd2 ht
      omega
  | some u =>
    show SchedulerInv t
      { queueLength := s.queueLength + 1, concurrency := s.concurrency, timeoutAt := some u,
        dispatchTimes := s.dispatchTimes, concurrencyHigh := s.concurrencyHigh }
    refine ⟨hconc, hhigh, hsp, ?_, ?_⟩
    · intro d u2 hd hu
      have hd2 : s.dispatchTimes.head? = some d := hd
      have hu2 : some u = some u2 := hu
      exact hsome d u2 hd2 (by rw [ht, hu2])
    · intro d hd hu
      have hu2 : some u = (none : Option Nat) := hu
      exact absurd hu2 (by simp)

lemma timerFire_inv (now t u : Nat) (s : SchedulerState)
    (hinv : SchedulerInv now s) (_hnow : now ≤ t)
    (ht : s.timeoutAt = some u) (htu : u ≤ t) :
    SchedulerInv t (schedulerStep s (.timerFire t)) := by
  obtain ⟨hconc, hhigh, hsp, hsome, hnone⟩ := hinv
  rw [schedulerStep_timerFire]
  apply pnqe_inv t _ hconc hhigh hsp
  intro d hd
  have := hsome d u hd ht
  omega

lemma complete_inv (now t : Nat) (s : SchedulerState)
    (hinv : SchedulerInv now s) (hnow : now ≤ t) :
    SchedulerInv t (schedulerStep s (.complete t)) := by
  obtain ⟨hconc, hhigh, hsp, hsome, hnone⟩ := hinv
  rw [schedulerStep_complete]
  refine ⟨?_, hhigh, hsp, ?_, ?_⟩
  · show s.concurrency - 1 ≤ MAX_CONCURRENCY
    omega
  · intro d u2 hd hu
    have hd2 : s.dispatchTimes.head? = some d := hd
    have hu2 : s.timeoutAt = some u2 := hu
    exact hsome d u2 hd2 hu2
  · intro d hd hu
    have hd2 : s.dispatchTimes.head? = some d := hd
    have hu2 : s.timeoutAt = none := hu
    have := hnone d hd2 hu2
    omega

lemma eventOk_timerFire_iff (s : SchedulerState) (t : Nat) :
    eventOk s (.timerFire t) = true ↔ ∃ u, s.timeoutAt = some u ∧ u ≤ t := by
  unfold eventOk
  cases h : s.timeoutAt with
  | none => simp
  | some u => simp

lemma schedulerRun_inv : ∀ (evs : List SchedulerEvent) (now : Nat) (s : SchedulerState),
    SchedulerInv now s → eventsWf now s evs = true →
    (schedulerRun s evs).concurrencyHigh ≤ MAX_CONCURRENCY ∧
    Spaced (schedulerRun s evs).dispatchTimes := by
  intro evs
  induction evs with
  | nil =>
    intro now s hinv _
    exact ⟨hinv.2.1, hinv.2.2.1⟩
  | cons ev tl ih =>
    intro now s hinv hwf
    unfold eventsWf at hwf
    rw [Bool.and_eq_true, Bool.and_eq_true] at hwf
    obtain ⟨⟨hnow, hcond⟩, hrest⟩ := hwf
    rw [decide_eq_true_iff] at hnow
    have hinv2 : SchedulerInv ev.time (schedulerStep s ev) := by
      cases ev with
      | submit t => exact submit_inv now t s hinv hnow
      | timerFire t =>
        obtain ⟨u, hu, hut⟩ := (eventOk_timerFire_iff s t).mp hcond
        exact timerFire_inv now t u s hinv hnow hu hut
      | complete t => exact complete_inv now t s hinv hnow
    have hrun : schedulerRun s (ev :: tl) = schedulerRun (schedulerStep s ev) tl := rfl
    rw [hrun]
    exact ih ev.time (schedulerStep s ev) hinv2 hrest

end AwsApiGateway

namespace AwsApiGateway

/-- Claim C9, confirmed: over every well-formed event sequence driven through
the scheduler (timers fire no earlier than scheduled, completions only while
an operation is in flight, time is monotone), the in-flight high-water mark
never exceeds `MAX_CONCURRENCY` (1) — so at most one remote call is in
flight at any instant — and any two consecutive dispatch start instants are
separated by at least `MIN_DELAY` (200ms). -/
theorem scheduler_invariants (evs : List SchedulerEvent)
    (hwf : eventsWf 0 initialScheduler evs = true) :
    (schedulerRun initialScheduler evs).concurrencyHigh ≤ MAX_CONCURRENCY ∧
    Spaced (schedulerRun initialScheduler evs).dispatchTimes := by
  apply schedulerRun_inv evs 0 initialScheduler ?_ hwf
  refine ⟨by decide, by decide, ?_, ?_, ?_⟩
  · show List.Chain' _ ([] : List Nat)
    exact List.chain'_nil
  · intro d u hd _
    exact absurd hd (by simp [initialScheduler])
  · intro d hd _
    exact absurd hd (by simp [initialScheduler])

/-- Witness for C9: a concrete well-formed run (submit at 0, timer at 200,
completion at 210, submit at 450) satisfies both bounds. -/
theorem scheduler_invariants_witness :
    (schedulerRun initialScheduler evWitness).concurrencyHigh ≤ MAX_CONCURRENCY ∧
    Spaced (schedulerRun initialScheduler evWitness).dispatchTimes :=
  scheduler_invariants evWitness (by decide)

end AwsApiGateway
